import Mathlib

/-!
# Workflow engine of sqle: model and verified properties

A shallow embedding of `sqle/model/workflow.go` and of the handler `UpdateRole`
of `sqle/api/controller/v2/role.go`.

Conventions of the embedding.

* Go `uint` identifiers are natural numbers; `0` is the zero value gorm
  treats as "no primary key yet".
* `*time.Time` is `Option Nat` (a timestamp), `time.Time` is `Nat`.
* A pointer that the code tests against `nil` (`CurrentStep`, `Template`,
  `OperationUser`, `CreateUser`, `ScheduledAt`) is an `Option`.  A pointer the
  methods dereference unconditionally (`w.Record`, the elements of the
  slices) is carried as the value it points to.
* Go compares `*WorkflowRecord` values by address; the address of the
  allocation behind such a pointer is the field `addr` of the record.
* A panic (nil dereference, index out of range) is the result `none`.
* Where the code tells a nil slice from an empty one (`UpdateRole`), a slice is
  an `Option (List α)`; elsewhere it is a `List α`.
-/

set_option autoImplicit false

namespace Sqle

/-! ## Data model -/

/-- The `User` rows as far as the workflow code reads them. -/
structure User where
  ID : Nat := 0
  Name : String := ""
  deriving DecidableEq, Repr

/-- Go's `sql.NullBool`: `Valid` tells whether the column is non-NULL, `Bool`
is the payload. -/
structure NullBool where
  Valid : Bool := false
  Bool : Bool := false
  deriving DecidableEq, Repr

/-- `WorkflowStepTemplate` (workflow.go, lines 29-38); the embedded `Model`
contributes `ID` and `CreatedAt`. -/
structure WorkflowStepTemplate where
  ID : Nat := 0
  CreatedAt : Nat := 0
  Number : Nat := 0
  WorkflowTemplateId : Int := 0
  Typ : String := ""
  Desc : String := ""
  ApprovedByAuthorized : NullBool := {}
  Users : List User := []
  deriving DecidableEq, Repr

/-- `WorkflowStep` (workflow.go, lines 187-200). -/
structure WorkflowStep where
  ID : Nat := 0
  CreatedAt : Nat := 0
  OperationUserId : Nat := 0
  OperateAt : Option Nat := none
  WorkflowId : Nat := 0
  WorkflowRecordId : Nat := 0
  WorkflowStepTemplateId : Nat := 0
  State : String := ""
  Reason : String := ""
  Assignees : List User := []
  Template : Option WorkflowStepTemplate := none
  OperationUser : Option User := none
  deriving DecidableEq, Repr

/-- `WorkflowRecord` (workflow.go, lines 169-179).  `addr` is the identity of
the allocation a `*WorkflowRecord` points to. -/
structure WorkflowRecord where
  addr : Nat := 0
  ID : Nat := 0
  CreatedAt : Nat := 0
  TaskId : Nat := 0
  CurrentWorkflowStepId : Nat := 0
  Status : String := ""
  ScheduledAt : Option Nat := none
  ScheduleUserId : Nat := 0
  CurrentStep : Option WorkflowStep := none
  Steps : List WorkflowStep := []
  deriving DecidableEq, Repr

/-- `Workflow` (workflow.go, lines 147-157). -/
structure Workflow where
  ID : Nat := 0
  CreatedAt : Nat := 0
  Subject : String := ""
  Desc : String := ""
  CreateUserId : Nat := 0
  WorkflowRecordId : Nat := 0
  CreateUser : Option User := none
  Record : WorkflowRecord := {}
  RecordHistory : List WorkflowRecord := []
  deriving DecidableEq, Repr

def WorkflowStatusRunning : String := "on_process"
def WorkflowStatusReject : String := "rejected"
def WorkflowStatusCancel : String := "canceled"
def WorkflowStatusExecScheduled : String := "exec_scheduled"
def WorkflowStatusExecuting : String := "executing"
def WorkflowStatusExecFailed : String := "exec_failed"
def WorkflowStatusFinish : String := "finished"

def WorkflowStepStateInit : String := "initialized"
def WorkflowStepStateApprove : String := "approved"
def WorkflowStepStateReject : String := "rejected"

/-! ## Pure operations on the in-memory model -/

/-- One iteration of the loop of `generateWorkflowStepByTemplate`
(workflow.go, lines 205-211): the step literal, then the conditional
overwrite of its assignees. -/
def generateWorkflowStep (st : WorkflowStepTemplate) (allInspector : List User) :
    WorkflowStep :=
  let step : WorkflowStep := { WorkflowStepTemplateId := st.ID, Assignees := st.Users }
  if st.ApprovedByAuthorized.Bool then { step with Assignees := allInspector } else step

/-- `generateWorkflowStepByTemplate` (workflow.go, lines 202-215): the slice
starts empty and every iteration appends one step. -/
def generateWorkflowStepByTemplate (stepsTemplate : List WorkflowStepTemplate)
    (allInspector : List User) : List WorkflowStep :=
  stepsTemplate.foldl (fun steps st => steps ++ [generateWorkflowStep st allInspector]) []

/-- One iteration of the loop of `cloneWorkflowStep` (workflow.go, lines
220-224).  `step.Template.ID` dereferences the template pointer: the result is
`none` when the step has no loaded template (a nil-pointer panic in Go). -/
def cloneWorkflowStepBody (workflowID : Nat) (steps : List WorkflowStep)
    (step : WorkflowStep) : Option (List WorkflowStep) :=
  match step.Template with
  | none => none
  | some template =>
    some (steps ++ [{ WorkflowStepTemplateId := template.ID,
                      WorkflowId := workflowID,
                      Assignees := step.Assignees }])

/-- `cloneWorkflowStep` (workflow.go, lines 217-227); `none` is the panic of
the loop body. -/
def Workflow.cloneWorkflowStep (w : Workflow) : Option (List WorkflowStep) :=
  w.Record.Steps.foldlM (cloneWorkflowStepBody w.ID) []

/-- `CurrentStep` (workflow.go, lines 236-238). -/
def Workflow.CurrentStep (w : Workflow) : Option WorkflowStep :=
  w.Record.CurrentStep

/-- `CurrentAssigneeUser` (workflow.go, lines 240-246). -/
def Workflow.CurrentAssigneeUser (w : Workflow) : List User :=
  match w.CurrentStep with
  | none => []
  | some currentStep => currentStep.Assignees

/-- The loop of `NextStep` (workflow.go, lines 249-255): `i` is the index of the
head of the remaining steps; the result is the final value of `nextIndex`,
which keeps its zero value when no step matches. -/
def nextIndexLoop (currentWorkflowStepId : Nat) : List WorkflowStep → Nat → Nat
  | [], _ => 0
  | step :: rest, i =>
    if step.ID = currentWorkflowStepId then i + 1
    else nextIndexLoop currentWorkflowStepId rest (i + 1)

/-- `NextStep` (workflow.go, lines 248-260).  `len(w.Record.Steps)-1` is a
signed `int`, so the comparison is made in `Int`. -/
def Workflow.NextStep (w : Workflow) : Option WorkflowStep :=
  let nextIndex : Nat := nextIndexLoop w.Record.CurrentWorkflowStepId w.Record.Steps 0
  if (nextIndex : Int) ≤ (w.Record.Steps.length : Int) - 1 then
    w.Record.Steps[nextIndex]?
  else
    none

/-- The loop of `IsOperationUser` (workflow.go, lines 270-274). -/
def isAssignee (user : User) : List User → Bool
  | [] => false
  | assUser :: rest => if user.ID = assUser.ID then true else isAssignee user rest

/-- `IsOperationUser` (workflow.go, lines 266-276). -/
def Workflow.IsOperationUser (w : Workflow) (user : User) : Bool :=
  match w.CurrentStep with
  | none => false
  | some currentStep => isAssignee user currentStep.Assignees

/-- `IsFirstRecord` (workflow.go, lines 280-288): `record == records[0]`
compares two pointers, that is two addresses. -/
def Workflow.IsFirstRecord (w : Workflow) (record : WorkflowRecord) : Bool :=
  let records : List WorkflowRecord := ([] ++ w.RecordHistory) ++ [w.Record]
  match records with
  | first :: _ => decide (record.addr = first.addr)
  | [] => false

/-- The records `IsFirstRecord` looks at: the loaded history followed by the
current record. -/
def Workflow.loadedRecords (w : Workflow) : List WorkflowRecord :=
  w.RecordHistory ++ [w.Record]

/-- A record is the earliest of a list by creation timestamp: none of the list
was created before it. -/
def IsEarliest (record : WorkflowRecord) (records : List WorkflowRecord) : Prop :=
  ∀ other ∈ records, record.CreatedAt ≤ other.CreatedAt

instance (record : WorkflowRecord) (records : List WorkflowRecord) :
    Decidable (IsEarliest record records) := by
  unfold IsEarliest
  infer_instance

/-! ## The relational store

The tables the workflow code reads and writes, as lists of their live rows
(`deleted_at IS NULL`; nothing modelled here soft-deletes).  A row of
`workflow_steps`, `workflow_records` or `workflows` is the gorm struct with its
associations unloaded.  Primary keys come from per-table `AUTO_INCREMENT`
counters.  A query without `ORDER BY` returns rows in table order.

Every statement sent to the database may fail.  Which ones do is an input of
each call (`faults`): the model is a function of the database, the arguments
and these verdicts.  `errors.New(code, err)` of package `errors` is taken to
return nil for a nil `err`, as the last line of `CreateWorkflow` relies on. -/

/-- Error categories of package `errors` that the workflow code attaches. -/
inductive ErrorCode where
  | ConnectStorageError
  | DataConflict
  deriving DecidableEq, Repr

/-- The `Instance` a task targets, as far as the workflow code reads it. -/
structure Instance where
  ID : Nat := 0
  Name : String := ""
  deriving DecidableEq, Repr

/-- The `Task` handed to the workflow code: its ID and its instance pointer. -/
structure Task where
  ID : Nat := 0
  Instance : Option Instance := none
  deriving DecidableEq, Repr

/-- A row of the join table `workflow_step_user`. -/
structure WorkflowStepUser where
  workflow_step_id : Nat
  user_id : Nat
  deriving DecidableEq, Repr

/-- A row of the join table `workflow_record_history`. -/
structure WorkflowRecordHistory where
  workflow_id : Nat
  workflow_record_id : Nat
  deriving DecidableEq, Repr

/-- A row of `workflow_step_templates`.  Unlike the Go struct, the row can hold
NULL in `workflow_template_id` (a detached step template) and in
`approved_by_authorized`. -/
structure WorkflowStepTemplateRow where
  ID : Nat := 0
  Number : Nat := 0
  WorkflowTemplateId : Option Int := none
  Typ : String := ""
  Desc : String := ""
  ApprovedByAuthorized : Option Bool := none
  deriving DecidableEq, Repr

/-- Scanning a row into the Go struct: NULL leaves the zero value, and
`sql.NullBool` records whether the column was non-NULL.  The association
`Users` is not part of the row. -/
def WorkflowStepTemplateRow.scan (row : WorkflowStepTemplateRow) : WorkflowStepTemplate :=
  { ID := row.ID
    Number := row.Number
    WorkflowTemplateId := row.WorkflowTemplateId.getD 0
    Typ := row.Typ
    Desc := row.Desc
    ApprovedByAuthorized :=
      match row.ApprovedByAuthorized with
      | none => { Valid := false, Bool := false }
      | some b => { Valid := true, Bool := b } }

/-- The value `sql.NullBool` hands to the driver (its method `Value`): NULL
unless `Valid`. -/
def nullBoolValue (n : NullBool) : Option Bool :=
  if n.Valid then some n.Bool else none

/-- The row written by `INSERT INTO workflow_step_templates (step_number,
workflow_template_id, type, desc, approved_by_authorized)` (workflow.go, lines 83
and 113) for a step, once the table has assigned `id`. -/
def insertedStepTemplate (id templateId : Nat) (step : WorkflowStepTemplate) :
    WorkflowStepTemplateRow :=
  { ID := id
    Number := step.Number
    WorkflowTemplateId := some (templateId : Int)
    Typ := step.Typ
    Desc := step.Desc
    ApprovedByAuthorized := nullBoolValue step.ApprovedByAuthorized }

/-- A row of the join table `workflow_step_template_user`. -/
structure WorkflowStepTemplateUser where
  workflow_step_template_id : Nat
  user_id : Nat
  deriving DecidableEq, Repr

/-- The database behind `Storage`. -/
structure DB where
  users : List User := []
  workflow_step_templates : List WorkflowStepTemplateRow := []
  workflow_step_template_user : List WorkflowStepTemplateUser := []
  nextStepTemplateId : Nat := 1
  workflows : List Workflow := []
  workflow_records : List WorkflowRecord := []
  workflow_steps : List WorkflowStep := []
  workflow_step_user : List WorkflowStepUser := []
  workflow_record_history : List WorkflowRecordHistory := []
  nextWorkflowId : Nat := 1
  nextRecordId : Nat := 1
  nextStepId : Nat := 1
  deriving DecidableEq, Repr

/-- Every primary key in use lies below its table's counter, and the counters
are positive: the state `AUTO_INCREMENT` maintains. -/
def DB.WF (db : DB) : Prop :=
  0 < db.nextWorkflowId ∧ 0 < db.nextRecordId ∧ 0 < db.nextStepId ∧
  (∀ w ∈ db.workflows, w.ID < db.nextWorkflowId) ∧
  (∀ r ∈ db.workflow_records, r.ID < db.nextRecordId) ∧
  (∀ step ∈ db.workflow_steps, step.ID < db.nextStepId)

instance (db : DB) : Decidable db.WF := by
  unfold DB.WF
  infer_instance

/-- What a call takes from outside `workflow.go`: the operation-code constant
and the directory query `GetUsersByOperationCode` (declared elsewhere in package
`model`), the wall clock gorm stamps new rows with, and the verdict of the
database driver on each successive statement of the call (`true`: the statement
returns an error; statements past the end of the list succeed). -/
structure Env where
  OP_WORKFLOW_AUDIT : Nat
  GetUsersByOperationCode : Option Instance → Nat → Except ErrorCode (List User)
  now : Nat
  faults : List Bool

/-- The driver's verdict on the next statement: `none` when it fails, otherwise
the verdicts left for the statements after it. -/
def nextStatement : List Bool → Option (List Bool)
  | [] => some []
  | true :: _ => none
  | false :: rest => some rest

/-- An open transaction (`s.db.Begin()`): the database as the transaction sees
it and the verdicts still to come. -/
structure Tx where
  db : DB
  faults : List Bool

/-- Run one writing statement inside the transaction. -/
def Tx.exec (tx : Tx) (effect : DB → DB) : Option Tx :=
  match nextStatement tx.faults with
  | none => none
  | some rest => some { db := effect tx.db, faults := rest }

/-- `tx.Save(record)` for a record without primary key: an `INSERT` that
assigns the next id, stamps `created_at`, and lets the column default
`on_process` (struct tag, workflow.go line 173) fill a blank status. -/
def Tx.saveRecord (tx : Tx) (now : Nat) (record : WorkflowRecord) :
    Option (Tx × WorkflowRecord) :=
  let saved : WorkflowRecord :=
    { record with
      ID := tx.db.nextRecordId
      CreatedAt := now
      Status := if record.Status = "" then WorkflowStatusRunning else record.Status }
  (tx.exec fun db =>
    { db with workflow_records := db.workflow_records ++ [saved]
              nextRecordId := db.nextRecordId + 1 }).map fun tx => (tx, saved)

/-- `tx.Save(workflow)` for a workflow without primary key. -/
def Tx.saveWorkflow (tx : Tx) (now : Nat) (workflow : Workflow) : Option (Tx × Workflow) :=
  let saved : Workflow := { workflow with ID := tx.db.nextWorkflowId, CreatedAt := now }
  (tx.exec fun db =>
    { db with workflows := db.workflows ++ [saved]
              nextWorkflowId := db.nextWorkflowId + 1 }).map fun tx => (tx, saved)

/-- `tx.Save(currentStep)` for a step without primary key; a blank state takes
the column default `initialized` (struct tag, workflow.go line 194). -/
def Tx.saveStep (tx : Tx) (now : Nat) (step : WorkflowStep) : Option (Tx × WorkflowStep) :=
  let saved : WorkflowStep :=
    { step with
      ID := tx.db.nextStepId
      CreatedAt := now
      State := if step.State = "" then WorkflowStepStateInit else step.State }
  (tx.exec fun db =>
    { db with workflow_steps := db.workflow_steps ++ [saved]
              nextStepId := db.nextStepId + 1 }).map fun tx => (tx, saved)

/-- `tx.Model(currentStep).Association("Assignees").Replace(users)`: afterwards
the relation rows of this step are one row per distinct user id of `users`; the
rows of other steps are untouched.  The users are taken to carry their primary
key: for a user whose `ID` is 0 gorm would first insert a row into `users` and
link the key it got, which is not modelled (the table `users` is never written
here). -/
def Tx.replaceAssignees (tx : Tx) (stepID : Nat) (users : List User) : Option Tx :=
  tx.exec fun db =>
    { db with workflow_step_user :=
        db.workflow_step_user.filter (fun row => decide (row.workflow_step_id ≠ stepID))
          ++ (users.map fun u => WorkflowStepUser.mk stepID u.ID).dedup }

/-- `tx.Model(record).Update("current_workflow_step_id", stepID)`: an `UPDATE`
keyed by the record's primary key. -/
def Tx.updateCurrentStep (tx : Tx) (recordID stepID : Nat) : Option Tx :=
  tx.exec fun db =>
    { db with workflow_records := db.workflow_records.map fun r =>
        if r.ID = recordID then { r with CurrentWorkflowStepId := stepID } else r }

/-- `tx.Commit()`: the writes of the transaction become the database. -/
def Tx.commit (tx : Tx) : Option DB :=
  (nextStatement tx.faults).map fun _ => tx.db

/-- The loop of `CreateWorkflow` over the generated steps (workflow.go, lines
324-340).  `none` is the path `tx.Rollback(); return err`.  On success the
steps are returned as the loop leaves them in memory, primary keys assigned. -/
def createWorkflowSteps (now recordID workflowID : Nat) :
    Tx → List WorkflowStep → Option (Tx × List WorkflowStep)
  | tx, [] => some (tx, [])
  | tx, step :: rest =>
    let currentStep : WorkflowStep :=
      { step with WorkflowRecordId := recordID, WorkflowId := workflowID }
    let users := currentStep.Assignees
    let currentStep : WorkflowStep := { currentStep with Assignees := [] }
    match tx.saveStep now currentStep with
    | none => none
    | some (tx, currentStep) =>
      match tx.replaceAssignees currentStep.ID users with
      | none => none
      | some tx =>
        match createWorkflowSteps now recordID workflowID tx rest with
        | none => none
        | some (tx, saved) => some (tx, currentStep :: saved)

/-- `CreateWorkflow` (workflow.go, lines 290-349).  The result is the returned
error (`none` for nil) and the database after the call; every `tx.Rollback()`
path, and a failed commit, leave the database as it was.  `s.db.Begin()` itself
is not counted as a statement: its error is not checked by the code and would
surface at the first `Save`. -/
def CreateWorkflow (env : Env) (db : DB) (subject desc : String) (user : User) (task : Task)
    (stepTemplates : List WorkflowStepTemplate) : Option ErrorCode × DB :=
  let workflow : Workflow := { Subject := subject, Desc := desc, CreateUserId := user.ID }
  let record : WorkflowRecord := { TaskId := task.ID }
  match env.GetUsersByOperationCode task.Instance env.OP_WORKFLOW_AUDIT with
  | .error err => (some err, db)
  | .ok inspector =>
    let steps := generateWorkflowStepByTemplate stepTemplates inspector
    let tx : Tx := { db := db, faults := env.faults }
    match tx.saveRecord env.now record with
    | none => (some .ConnectStorageError, db)
    | some (tx, record) =>
      let workflow : Workflow := { workflow with WorkflowRecordId := record.ID }
      match tx.saveWorkflow env.now workflow with
      | none => (some .ConnectStorageError, db)
      | some (tx, workflow) =>
        match createWorkflowSteps env.now record.ID workflow.ID tx steps with
        | none => (some .ConnectStorageError, db)
        | some (tx, steps) =>
          let updated : Option Tx :=
            match steps with
            | first :: _ => tx.updateCurrentStep record.ID first.ID
            | [] => some tx
          match updated with
          | none => (some .ConnectStorageError, db)
          | some tx =>
            match tx.commit with
            | none => (some .ConnectStorageError, db)
            | some committed => (none, committed)

/-! ### Reading the history -/

/-- The rows of the query of `GetWorkflowHistoryById` (workflow.go, lines
488-490): `workflow_records` joined with the history rows of the workflow.  The
addresses of the structs `Scan` allocates are not modelled: a loaded record
keeps the `addr` of its row, so nothing about pointer identity is to be read off
a loaded record. -/
def DB.historyRecords (db : DB) (id : Nat) : List WorkflowRecord :=
  db.workflow_records.flatMap fun record =>
    (db.workflow_record_history.filter fun wrh =>
      decide (record.ID = wrh.workflow_record_id ∧ wrh.workflow_id = id)).map fun _ =>
        { record with CurrentStep := none, Steps := [] }

/-- The `Find` of `getWorkflowStepsByRecordIds` (workflow.go, lines 434-436):
the steps of the given records, each with `Assignees` and `OperationUser`
preloaded from the user table. -/
def DB.findStepsByRecordIds (db : DB) (ids : List Nat) : List WorkflowStep :=
  (db.workflow_steps.filter fun step => decide (step.WorkflowRecordId ∈ ids)).map fun step =>
    { step with
      Assignees := db.users.filter fun u =>
        decide (WorkflowStepUser.mk step.ID u.ID ∈ db.workflow_step_user)
      OperationUser := db.users.find? fun u => decide (u.ID = step.OperationUserId)
      Template := none }

/-- The double loop of `getWorkflowStepsByRecordIds` (workflow.go, lines
449-455) for one step: every matching template overwrites `step.Template`. -/
def attachTemplate (stepTemplates : List WorkflowStepTemplate) (step : WorkflowStep) :
    WorkflowStep :=
  stepTemplates.foldl
    (fun step stepTemplate =>
      if step.WorkflowStepTemplateId = stepTemplate.ID then
        { step with Template := some stepTemplate }
      else step)
    step

/-- What `getWorkflowStepsByRecordIds` returns when both of its queries
succeed; the second query has no `Preload`, so the templates come without their
users. -/
def DB.stepsByRecordIds (db : DB) (ids : List Nat) : List WorkflowStep :=
  let steps := db.findStepsByRecordIds ids
  let stepTemplateIds : List Nat :=
    steps.foldl (fun acc step => acc ++ [step.WorkflowStepTemplateId]) []
  let stepTemplates :=
    (db.workflow_step_templates.filter fun t => decide (t.ID ∈ stepTemplateIds)).map fun t =>
      t.scan
  steps.map (attachTemplate stepTemplates)

/-- `getWorkflowStepsByRecordIds` (workflow.go, lines 432-457): two queries,
each of which may fail. -/
def getWorkflowStepsByRecordIds (db : DB) (faults : List Bool) (ids : List Nat) :
    Except ErrorCode (List WorkflowStep) :=
  match nextStatement faults with
  | none => .error .ConnectStorageError
  | some faults =>
    match nextStatement faults with
    | none => .error .ConnectStorageError
    | some _ => .ok (db.stepsByRecordIds ids)

/-- The inner loop of `GetWorkflowHistoryById` (workflow.go, lines 506-511) for
one record: `record.Steps` starts empty and takes, in order, every fetched step
that passes the test. -/
def historySteps (record : WorkflowRecord) (steps : List WorkflowStep) : List WorkflowStep :=
  steps.foldl
    (fun recordSteps step =>
      if step.WorkflowRecordId = record.ID ∧ step.State ≠ WorkflowStepStateInit then
        recordSteps ++ [step]
      else recordSteps)
    []

/-- `GetWorkflowHistoryById` (workflow.go, lines 486-514).  The Go parameter is
the decimal string of the workflow id; the model takes the number. -/
def GetWorkflowHistoryById (db : DB) (faults : List Bool) (id : Nat) :
    Except ErrorCode (List WorkflowRecord) :=
  match nextStatement faults with
  | none => .error .ConnectStorageError
  | some faults =>
    let records := db.historyRecords id
    if records.length = 0 then .ok records
    else
      let recordIds : List Nat := records.foldl (fun ids record => ids ++ [record.ID]) []
      match getWorkflowStepsByRecordIds db faults recordIds with
      | .error _ => .error .ConnectStorageError
      | .ok steps => .ok (records.map fun record =>
          { record with Steps := historySteps record steps })

/-! ### Closed forms used in the proofs -/

/-- No statement of the call fails. -/
def NoFault (faults : List Bool) : Prop :=
  ∀ b ∈ faults, b = false

instance (faults : List Bool) : Decidable (NoFault faults) := by
  unfold NoFault
  infer_instance

/-- The row `CreateWorkflow` stores for a generated step when it receives
primary key `k`. -/
def stepRow (now recordID workflowID k : Nat) (step : WorkflowStep) : WorkflowStep :=
  { step with
    WorkflowRecordId := recordID
    WorkflowId := workflowID
    Assignees := []
    ID := k
    CreatedAt := now
    State := if step.State = "" then WorkflowStepStateInit else step.State }

/-- The rows stored for a list of generated steps, keys counting up from `k`. -/
def stepRows (now recordID workflowID : Nat) : Nat → List WorkflowStep → List WorkflowStep
  | _, [] => []
  | k, step :: rest =>
    stepRow now recordID workflowID k step :: stepRows now recordID workflowID (k + 1) rest

/-- The relation `workflow_step_user` after the assignees of a list of steps
have been replaced in turn, keys counting up from `k`. -/
def assigneeRows : List WorkflowStepUser → Nat → List WorkflowStep → List WorkflowStepUser
  | rows, _, [] => rows
  | rows, k, step :: rest =>
    assigneeRows
      (rows.filter (fun row => decide (row.workflow_step_id ≠ k))
        ++ (step.Assignees.map fun u => WorkflowStepUser.mk k u.ID).dedup)
      (k + 1) rest

/-- The record row as `tx.Save(record)` inserts it. -/
def insertedRecord (now : Nat) (db : DB) (task : Task) : WorkflowRecord :=
  { TaskId := task.ID
    ID := db.nextRecordId
    CreatedAt := now
    Status := WorkflowStatusRunning }

/-- The workflow row as `tx.Save(workflow)` inserts it. -/
def createdWorkflow (now : Nat) (db : DB) (subject desc : String) (user : User) : Workflow :=
  { Subject := subject
    Desc := desc
    CreateUserId := user.ID
    WorkflowRecordId := db.nextRecordId
    ID := db.nextWorkflowId
    CreatedAt := now }

/-- The database a successful `CreateWorkflow` commits, given the generated
steps. -/
def createdDB (now : Nat) (db : DB) (subject desc : String) (user : User) (task : Task)
    (steps : List WorkflowStep) : DB :=
  let inserted := db.workflow_records ++ [insertedRecord now db task]
  { db with
    workflows := db.workflows ++ [createdWorkflow now db subject desc user]
    workflow_records :=
      match steps with
      | [] => inserted
      | _ :: _ => inserted.map fun r =>
          if r.ID = db.nextRecordId then { r with CurrentWorkflowStepId := db.nextStepId } else r
    workflow_steps :=
      db.workflow_steps ++ stepRows now db.nextRecordId db.nextWorkflowId db.nextStepId steps
    workflow_step_user := assigneeRows db.workflow_step_user db.nextStepId steps
    nextWorkflowId := db.nextWorkflowId + 1
    nextRecordId := db.nextRecordId + 1
    nextStepId := db.nextStepId + steps.length }

/-! ### Concrete inputs -/

def userAlice : User := { ID := 1, Name := "alice" }
def userBob : User := { ID := 2, Name := "bob" }
def userCarol : User := { ID := 3, Name := "carol" }

def templateReview : WorkflowStepTemplate :=
  { ID := 11, Number := 1, Typ := "sql_review", Users := [userAlice] }
def templateExecute : WorkflowStepTemplate :=
  { ID := 12, Number := 2, Typ := "sql_execute", Users := [userCarol] }

/-- A record with two loaded steps, standing at the first. -/
def stepOne : WorkflowStep :=
  { ID := 101, WorkflowId := 7, WorkflowRecordId := 5, WorkflowStepTemplateId := 11,
    State := "approved", OperationUserId := 1, Reason := "ok", OperateAt := some 50,
    Assignees := [userAlice], Template := some templateReview }
def stepTwo : WorkflowStep :=
  { ID := 102, WorkflowId := 7, WorkflowRecordId := 5, WorkflowStepTemplateId := 12,
    State := "initialized", Assignees := [userCarol], Template := some templateExecute }
def recordAtStepOne : WorkflowRecord :=
  { addr := 3, ID := 5, CreatedAt := 30, TaskId := 9, CurrentWorkflowStepId := 101,
    Status := "on_process", CurrentStep := some stepOne, Steps := [stepOne, stepTwo] }
def workflowAtStepOne : Workflow :=
  { ID := 7, Subject := "add index", CreateUserId := 4, WorkflowRecordId := 5,
    Record := recordAtStepOne }

/-- Two superseded records held in the history slice with the later one
first, as a join without `ORDER BY` may deliver them. -/
def recordLater : WorkflowRecord := { addr := 1, ID := 4, CreatedAt := 20, Status := "rejected" }
def recordEarlier : WorkflowRecord := { addr := 2, ID := 3, CreatedAt := 10, Status := "rejected" }
def workflowHistoryUnordered : Workflow :=
  { ID := 7, WorkflowRecordId := 5, Record := recordAtStepOne,
    RecordHistory := [recordLater, recordEarlier] }
def workflowHistoryOrdered : Workflow :=
  { ID := 7, WorkflowRecordId := 5, Record := recordAtStepOne,
    RecordHistory := [recordEarlier, recordLater] }


/-- A directory in which `eve` and `frank` hold `WORKFLOW_AUDIT`; no statement
fails. -/
def userEve : User := { ID := 5, Name := "eve" }
def userFrank : User := { ID := 6, Name := "frank" }
def envInspectors : Env :=
  { OP_WORKFLOW_AUDIT := 1
    GetUsersByOperationCode := fun _ _ => .ok [userEve, userFrank]
    now := 100
    faults := [] }

/-- A directory in which nobody holds `WORKFLOW_AUDIT`; no statement fails. -/
def envNoInspector : Env :=
  { OP_WORKFLOW_AUDIT := 1
    GetUsersByOperationCode := fun _ _ => .ok []
    now := 100
    faults := [] }

def taskNine : Task := { ID := 9, Instance := some { ID := 3, Name := "mysql-1" } }

/-- A step template whose assignees are resolved from the directory. -/
def templateAuthorized : WorkflowStepTemplate :=
  { ID := 21, Number := 1, Typ := "sql_review",
    ApprovedByAuthorized := { Valid := true, Bool := true } }

/-- A database without rows, counters at 1. -/
def dbEmpty : DB := {}

/-- A well-formed database that already holds one workflow with its record,
two steps and their assignees. -/
def dbOneWorkflow : DB :=
  { users := [userAlice, userBob, userCarol, userEve, userFrank]
    workflow_step_templates :=
      [insertedStepTemplate 11 1 templateReview, insertedStepTemplate 12 1 templateExecute]
    workflow_step_template_user := [⟨11, 1⟩, ⟨12, 3⟩]
    nextStepTemplateId := 22
    workflows := [{ ID := 1, CreatedAt := 40, Subject := "older", CreateUserId := 2,
                    WorkflowRecordId := 1 }]
    workflow_records := [{ ID := 1, CreatedAt := 40, TaskId := 8, CurrentWorkflowStepId := 1,
                           Status := "on_process" }]
    workflow_steps :=
      [{ ID := 1, CreatedAt := 40, WorkflowId := 1, WorkflowRecordId := 1,
         WorkflowStepTemplateId := 11, State := "initialized" },
       { ID := 2, CreatedAt := 40, WorkflowId := 1, WorkflowRecordId := 1,
         WorkflowStepTemplateId := 12, State := "initialized" }]
    workflow_step_user := [⟨1, 1⟩, ⟨2, 3⟩]
    nextWorkflowId := 2
    nextRecordId := 2
    nextStepId := 3 }

/-- The database after one more workflow has been created in `dbOneWorkflow`
from a template of two steps. -/
def dbTwoWorkflows : DB :=
  (CreateWorkflow envInspectors dbOneWorkflow "add index" "" userBob taskNine
    [templateAuthorized, templateExecute]).2

/-- A database in which workflow 1 has been rejected twice: records 1 and 2 are
in its history, record 3 is current. -/
def dbWithHistory : DB :=
  { users := [userAlice, userBob, userCarol]
    workflow_step_templates :=
      [insertedStepTemplate 11 1 templateReview, insertedStepTemplate 12 1 templateExecute]
    workflow_step_template_user := [⟨11, 1⟩, ⟨12, 3⟩]
    nextStepTemplateId := 22
    workflows := [{ ID := 1, CreatedAt := 10, Subject := "add index", CreateUserId := 2,
                    WorkflowRecordId := 3 }]
    workflow_records :=
      [{ ID := 1, CreatedAt := 10, TaskId := 8, CurrentWorkflowStepId := 2, Status := "rejected" },
       { ID := 2, CreatedAt := 20, TaskId := 8, CurrentWorkflowStepId := 3, Status := "rejected" },
       { ID := 3, CreatedAt := 30, TaskId := 8, CurrentWorkflowStepId := 5,
         Status := "on_process" }]
    workflow_steps :=
      [{ ID := 1, WorkflowId := 1, WorkflowRecordId := 1, WorkflowStepTemplateId := 11,
         State := "approved", OperationUserId := 1, OperateAt := some 12 },
       { ID := 2, WorkflowId := 1, WorkflowRecordId := 1, WorkflowStepTemplateId := 12,
         State := "rejected", OperationUserId := 3, OperateAt := some 14, Reason := "needs index" },
       { ID := 3, WorkflowId := 1, WorkflowRecordId := 2, WorkflowStepTemplateId := 11,
         State := "rejected", OperationUserId := 1, OperateAt := some 22, Reason := "again" },
       { ID := 4, WorkflowId := 1, WorkflowRecordId := 2, WorkflowStepTemplateId := 12,
         State := "initialized" },
       { ID := 5, WorkflowId := 1, WorkflowRecordId := 3, WorkflowStepTemplateId := 11,
         State := "initialized" },
       { ID := 6, WorkflowId := 1, WorkflowRecordId := 3, WorkflowStepTemplateId := 12,
         State := "initialized" }]
    workflow_step_user := [⟨1, 1⟩, ⟨2, 3⟩, ⟨3, 1⟩, ⟨4, 3⟩, ⟨5, 1⟩, ⟨6, 3⟩]
    workflow_record_history := [⟨1, 1⟩, ⟨1, 2⟩]
    nextWorkflowId := 2
    nextRecordId := 4
    nextStepId := 7 }

/-- The history `GetWorkflowHistoryById` reads for workflow 1 of
`dbWithHistory`. -/
def historyOfWorkflowOne : List WorkflowRecord :=
  match GetWorkflowHistoryById dbWithHistory [] 1 with
  | .ok records => records
  | .error _ => []

/-! ### Further operations on the in-memory model -/

/-- `FinalStep` (workflow.go, lines 262-264).  The index `len(w.Record.Steps)-1`
is a signed `int`; indexing outside `0 ≤ index < len` panics, which is the
result `none`. -/
def Workflow.FinalStep (w : Workflow) : Option WorkflowStep :=
  let index : Int := (w.Record.Steps.length : Int) - 1
  if 0 ≤ index ∧ index < (w.Record.Steps.length : Int) then
    w.Record.Steps[index.toNat]?
  else
    none

/-- A step template whose `approved_by_authorized` is not valid while its
`Bool` field is set. -/
def templateNullButSet : WorkflowStepTemplate :=
  { ID := 31, Number := 1, Typ := "sql_review",
    ApprovedByAuthorized := { Valid := false, Bool := true }, Users := [userAlice] }

/-- A step template whose `approved_by_authorized` is as scanned from NULL. -/
def templateNull : WorkflowStepTemplate :=
  { ID := 32, Number := 1, Typ := "sql_review",
    ApprovedByAuthorized := { Valid := false, Bool := false }, Users := [userAlice] }

/-- A workflow whose record names a current step id that none of its steps
has. -/
def workflowUnsetCurrentStep : Workflow :=
  { workflowAtStepOne with
    Record := { recordAtStepOne with CurrentWorkflowStepId := 0, CurrentStep := none } }

/-! ### Reading a workflow with its current record -/

/-- The loop of `GetWorkflowDetailById` (workflow.go, lines 478-482): every
step whose id is the record's current step id is assigned to `CurrentStep`. -/
def attachCurrentStep (record : WorkflowRecord) (steps : List WorkflowStep) : WorkflowRecord :=
  steps.foldl
    (fun record step =>
      if step.ID = record.CurrentWorkflowStepId then
        { record with CurrentStep := some step }
      else record)
    record

/-- `GetWorkflowDetailById` (workflow.go, lines 459-484); the result is the
triple the Go function returns.  The Go parameter is the decimal string of the
workflow id; the model takes the number.  `First` with its two `Preload`s is
one statement: it finds no row (`gorm.ErrRecordNotFound`), or the workflow row
with its creator and with the record row its `workflow_record_id` names, if
there is one.  The preloaded record comes with its own associations unloaded. -/
def GetWorkflowDetailById (db : DB) (faults : List Bool) (id : Nat) :
    Option Workflow × Bool × Option ErrorCode :=
  match nextStatement faults with
  | none => (none, false, some .ConnectStorageError)
  | some faults =>
    match db.workflows.find? (fun row => decide (row.ID = id)) with
    | none => (none, false, none)
    | some row =>
      match db.workflow_records.find? (fun r => decide (r.ID = row.WorkflowRecordId)) with
      | none => (none, false, some .DataConflict)
      | some recordRow =>
        let record : WorkflowRecord := { recordRow with CurrentStep := none, Steps := [] }
        match getWorkflowStepsByRecordIds db faults [record.ID] with
        | .error _ => (none, false, some .ConnectStorageError)
        | .ok steps =>
          let record : WorkflowRecord := { record with Steps := steps }
          let record := attachCurrentStep record steps
          let workflow : Workflow :=
            { row with
              CreateUser := db.users.find? (fun u => decide (u.ID = row.CreateUserId))
              Record := record
              RecordHistory := [] }
          (some workflow, true, none)

/-- A database whose only workflow row names a record that does not exist. -/
def dbDangling : DB :=
  { users := [userAlice, userBob]
    workflows := [{ ID := 1, CreatedAt := 10, Subject := "orphan", CreateUserId := 2,
                    WorkflowRecordId := 9 }]
    nextWorkflowId := 2 }

/-- Workflow 1 of `dbWithHistory` as `GetWorkflowDetailById` loads it. -/
def workflowOneLoaded : Workflow :=
  match (GetWorkflowDetailById dbWithHistory [] 1).1 with
  | some w => w
  | none => {}

/-! ### Re-submitting a workflow -/

/-- The loop of `UpdateWorkflowRecord` over the cloned steps (workflow.go, lines
364-379); unlike the loop of `CreateWorkflow` it sets only the record id, the
clones already carry the workflow id. -/
def updateWorkflowRecordSteps (now recordID : Nat) :
    Tx → List WorkflowStep → Option (Tx × List WorkflowStep)
  | tx, [] => some (tx, [])
  | tx, step :: rest =>
    let currentStep : WorkflowStep := { step with WorkflowRecordId := recordID }
    let users := currentStep.Assignees
    let currentStep : WorkflowStep := { currentStep with Assignees := [] }
    match tx.saveStep now currentStep with
    | none => none
    | some (tx, currentStep) =>
      match tx.replaceAssignees currentStep.ID users with
      | none => none
      | some tx =>
        match updateWorkflowRecordSteps now recordID tx rest with
        | none => none
        | some (tx, saved) => some (tx, currentStep :: saved)

/-- `INSERT INTO workflow_record_history (workflow_record_id, workflow_id)`
(workflow.go, line 388). -/
def Tx.insertRecordHistory (tx : Tx) (recordID workflowID : Nat) : Option Tx :=
  tx.exec fun db =>
    { db with workflow_record_history :=
        db.workflow_record_history ++ [WorkflowRecordHistory.mk workflowID recordID] }

/-- `tx.Model(&Workflow{}).Where("id = ?", workflowID).Update("workflow_record_id",
recordID)` (workflow.go, lines 396-397). -/
def Tx.updateWorkflowRecordId (tx : Tx) (workflowID recordID : Nat) : Option Tx :=
  tx.exec fun db =>
    { db with workflows := db.workflows.map fun row =>
        if row.ID = workflowID then { row with WorkflowRecordId := recordID } else row }

/-- `UpdateWorkflowRecord` (workflow.go, lines 351-403).  The outer `none` is
the nil-pointer panic of `cloneWorkflowStep`, raised before the transaction
begins; otherwise the result is the returned error and the database after the
call, every `tx.Rollback()` path leaving the database as it was. -/
def UpdateWorkflowRecord (env : Env) (db : DB) (w : Workflow) (task : Task) :
    Option (Option ErrorCode × DB) :=
  let record : WorkflowRecord := { TaskId := task.ID }
  match w.cloneWorkflowStep with
  | none => none
  | some steps =>
    let tx : Tx := { db := db, faults := env.faults }
    match tx.saveRecord env.now record with
    | none => some (some .ConnectStorageError, db)
    | some (tx, record) =>
      match updateWorkflowRecordSteps env.now record.ID tx steps with
      | none => some (some .ConnectStorageError, db)
      | some (tx, steps) =>
        let updated : Option Tx :=
          match steps with
          | first :: _ => tx.updateCurrentStep record.ID first.ID
          | [] => some tx
        match updated with
        | none => some (some .ConnectStorageError, db)
        | some tx =>
          match tx.insertRecordHistory w.Record.ID w.ID with
          | none => some (some .ConnectStorageError, db)
          | some tx =>
            match tx.updateWorkflowRecordId w.ID record.ID with
            | none => some (some .ConnectStorageError, db)
            | some tx =>
              match tx.commit with
              | none => some (some .ConnectStorageError, db)
              | some committed => some (none, committed)

/-- The database a successful `UpdateWorkflowRecord` commits, given the cloned
steps. -/
def resubmittedDB (now : Nat) (db : DB) (w : Workflow) (task : Task)
    (clones : List WorkflowStep) : DB :=
  let inserted := db.workflow_records ++ [insertedRecord now db task]
  { db with
    workflows := db.workflows.map fun row =>
      if row.ID = w.ID then { row with WorkflowRecordId := db.nextRecordId } else row
    workflow_records :=
      match clones with
      | [] => inserted
      | _ :: _ => inserted.map fun r =>
          if r.ID = db.nextRecordId then { r with CurrentWorkflowStepId := db.nextStepId } else r
    workflow_steps :=
      db.workflow_steps ++ stepRows now db.nextRecordId w.ID db.nextStepId clones
    workflow_step_user := assigneeRows db.workflow_step_user db.nextStepId clones
    workflow_record_history :=
      db.workflow_record_history ++ [WorkflowRecordHistory.mk w.ID w.Record.ID]
    nextRecordId := db.nextRecordId + 1
    nextStepId := db.nextStepId + clones.length }

/-- The database after workflow 1 of `dbWithHistory`, loaded while its record is
still `on_process`, has been re-submitted. -/
def dbResubmitted : DB :=
  match UpdateWorkflowRecord envInspectors dbWithHistory workflowOneLoaded taskNine with
  | some (_, db) => db
  | none => dbWithHistory

/-! ### Transactions through `TxExec`: deleting a workflow, replacing template steps -/

/-- Modelled from the spec: `Storage.TxExec`, the transactional scope primitive
of the persistence layer, which is declared outside the files at hand.  It runs
`fn` inside one transaction; when `fn` or the commit fails the transaction is
aborted, the database stays as it was and the error is surfaced as a storage
error; otherwise the writes are committed. -/
def TxExec (db : DB) (faults : List Bool) (fn : Tx → Option Tx) : Option ErrorCode × DB :=
  match fn { db := db, faults := faults } with
  | none => (some .ConnectStorageError, db)
  | some tx =>
    match tx.commit with
    | none => (some .ConnectStorageError, db)
    | some committed => (none, committed)

/-- The four statements of `DeleteWorkflow` (workflow.go, lines 561-577). -/
def deleteWorkflowStatements (workflow : Workflow) (tx : Tx) : Option Tx :=
  match tx.exec (fun db =>
      { db with workflows := db.workflows.filter fun row => decide (row.ID ≠ workflow.ID) }) with
  | none => none
  | some tx =>
    match tx.exec (fun db =>
        { db with workflow_records :=
            db.workflow_records.filter fun r => decide (r.ID ≠ workflow.WorkflowRecordId) }) with
    | none => none
    | some tx =>
      match tx.exec (fun db =>
          { db with workflow_steps :=
              db.workflow_steps.filter fun step => decide (step.WorkflowId ≠ workflow.ID) }) with
      | none => none
      | some tx =>
        tx.exec (fun db =>
          { db with workflow_record_history :=
              db.workflow_record_history.filter fun wrh =>
                decide (wrh.workflow_id ≠ workflow.ID) })

/-- `DeleteWorkflow` (workflow.go, lines 559-579). -/
def DeleteWorkflow (db : DB) (faults : List Bool) (workflow : Workflow) :
    Option ErrorCode × DB :=
  TxExec db faults (deleteWorkflowStatements workflow)

/-- The records of a workflow in a database: the record its row points at and
the records its history entries name. -/
def DB.recordIdsOf (db : DB) (workflowID : Nat) : List Nat :=
  ((db.workflows.filter fun row => decide (row.ID = workflowID)).map
      fun row => row.WorkflowRecordId)
    ++ ((db.workflow_record_history.filter fun wrh => decide (wrh.workflow_id = workflowID)).map
      fun wrh => wrh.workflow_record_id)

/-- Workflow 1 of `dbWithHistory` as the expiry query selects it: id and
`workflow_record_id` only. -/
def workflowOneExpired : Workflow := { ID := 1, WorkflowRecordId := 3 }

/-- The inner loop of `UpdateWorkflowTemplateSteps` (workflow.go, lines
123-129): one `INSERT INTO workflow_step_template_user` per user. -/
def insertStepTemplateUsers (stepId : Nat) : Tx → List User → Option Tx
  | tx, [] => some tx
  | tx, user :: rest =>
    match tx.exec (fun db =>
        { db with workflow_step_template_user :=
            db.workflow_step_template_user ++ [WorkflowStepTemplateUser.mk stepId user.ID] }) with
    | none => none
    | some tx => insertStepTemplateUsers stepId tx rest

/-- The loop of `UpdateWorkflowTemplateSteps` over the new steps (workflow.go,
lines 112-130).  The first component is `none` when a statement fails; the
second is the step list as the loop leaves it in memory, `step.ID` set from
`LastInsertId` for every step whose `INSERT` succeeded. -/
def insertStepTemplates (templateId : Nat) :
    Tx → List WorkflowStepTemplate → Option Tx × List WorkflowStepTemplate
  | tx, [] => (some tx, [])
  | tx, step :: rest =>
    match tx.exec (fun db =>
        { db with
          workflow_step_templates :=
            db.workflow_step_templates
              ++ [insertedStepTemplate db.nextStepTemplateId templateId step]
          nextStepTemplateId := db.nextStepTemplateId + 1 }) with
    | none => (none, step :: rest)
    | some tx1 =>
      let stepId := tx.db.nextStepTemplateId
      let step : WorkflowStepTemplate := { step with ID := stepId }
      match insertStepTemplateUsers stepId tx1 step.Users with
      | none => (none, step :: rest)
      | some tx2 =>
        ((insertStepTemplates templateId tx2 rest).1,
          step :: (insertStepTemplates templateId tx2 rest).2)

/-- The `UPDATE workflow_step_templates SET workflow_template_id = NULL WHERE
workflow_template_id = ?` of `UpdateWorkflowTemplateSteps` (workflow.go, line
107) on one row. -/
def detachStepTemplate (templateId : Nat) (row : WorkflowStepTemplateRow) :
    WorkflowStepTemplateRow :=
  if row.WorkflowTemplateId = some (templateId : Int) then
    { row with WorkflowTemplateId := none }
  else row

/-- The function `UpdateWorkflowTemplateSteps` hands to `TxExec`, with the step
list it leaves in memory. -/
def updateWorkflowTemplateStepsBody (templateId : Nat) (steps : List WorkflowStepTemplate)
    (tx : Tx) : Option Tx × List WorkflowStepTemplate :=
  match tx.exec (fun db =>
      { db with workflow_step_templates :=
          db.workflow_step_templates.map (detachStepTemplate templateId) }) with
  | none => (none, steps)
  | some tx => insertStepTemplates templateId tx steps

/-- `UpdateWorkflowTemplateSteps` (workflow.go, lines 105-133): the returned
error, the database after the call, and the caller's step list with the ids the
loop assigned. -/
def UpdateWorkflowTemplateSteps (db : DB) (faults : List Bool) (templateId : Nat)
    (steps : List WorkflowStepTemplate) :
    Option ErrorCode × DB × List WorkflowStepTemplate :=
  let result := TxExec db faults fun tx => (updateWorkflowTemplateStepsBody templateId steps tx).1
  (result.1, result.2,
    (updateWorkflowTemplateStepsBody templateId steps { db := db, faults := faults }).2)

/-- Every step template id in use, in the table and in the user relation, lies
below the table's `AUTO_INCREMENT` counter. -/
def DB.TemplatesWF (db : DB) : Prop :=
  (∀ row ∈ db.workflow_step_templates, row.ID < db.nextStepTemplateId) ∧
  (∀ row ∈ db.workflow_step_template_user,
    row.workflow_step_template_id < db.nextStepTemplateId)

instance (db : DB) : Decidable db.TemplatesWF := by
  unfold DB.TemplatesWF
  infer_instance

/-- The rows `UpdateWorkflowTemplateSteps` inserts for a step list, keys
counting up from `k`. -/
def stepTemplateRows (templateId : Nat) : Nat → List WorkflowStepTemplate →
    List WorkflowStepTemplateRow
  | _, [] => []
  | k, step :: rest =>
    insertedStepTemplate k templateId step :: stepTemplateRows templateId (k + 1) rest

/-- The user relation rows `UpdateWorkflowTemplateSteps` inserts for a step
list, keys counting up from `k`. -/
def stepTemplateUserRows : Nat → List WorkflowStepTemplate → List WorkflowStepTemplateUser
  | _, [] => []
  | k, step :: rest =>
    (step.Users.map fun u => WorkflowStepTemplateUser.mk k u.ID)
      ++ stepTemplateUserRows (k + 1) rest

/-- A replacement step list for template 1: a review step for `bob` and
`carol`, an execute step resolved from the directory, and a sign-off step for
`alice` whose `approved_by_authorized` is not valid. -/
def newTemplateSteps : List WorkflowStepTemplate :=
  [{ Number := 1, Typ := "sql_review", Desc := "peer review",
     ApprovedByAuthorized := { Valid := true, Bool := false }, Users := [userBob, userCarol] },
   { Number := 2, Typ := "sql_execute", Desc := "run",
     ApprovedByAuthorized := { Valid := true, Bool := true }, Users := [] },
   { Number := 3, Typ := "sql_review", Desc := "sign off",
     ApprovedByAuthorized := { Valid := false, Bool := false }, Users := [userAlice] }]

/-- `dbWithHistory` after the steps of template 1 have been replaced. -/
def dbTemplateReplaced : DB :=
  (UpdateWorkflowTemplateSteps dbWithHistory [] 1 newTemplateSteps).2.1

/-! ## The role controller (`api/controller/v2/role.go`)

`UpdateRole` calls into package `model` and package `controller`, which are
outside the files at hand; these calls are parameters of the embedding
(`RoleEnv`).  The embedding returns, next to the response, the sequence of calls
the handler made, so that what was checked and what was saved can be told. -/

/-- A Go slice value: `none` is the nil slice, `some l` a non-nil slice with the
elements `l`. -/
abbrev Slice (α : Type) := Option (List α)

/-- `model.Role` as far as `UpdateRole` touches it. -/
structure Role where
  ID : Nat := 0
  Name : String := ""
  Desc : String := ""
  Stat : Nat := 0
  deriving DecidableEq, Repr

/-- `model.UserGroup` as far as `UpdateRole` touches it. -/
structure UserGroup where
  ID : Nat := 0
  Name : String := ""
  deriving DecidableEq, Repr

/-- `UpdateRoleReqV2` (role.go, lines 204-211).  Every field is a pointer:
`none` is the nil pointer of an omitted field, `some v` a pointer to `v`. -/
structure UpdateRoleReqV2 where
  Desc : Option String := none
  Users : Option (List String) := none
  Instances : Option (List String) := none
  OperationCodes : Option (List Nat) := none
  UserGroups : Option (List String) := none
  IsDisabled : Option Bool := none
  deriving DecidableEq, Repr

/-- What the handler returns. -/
inductive RoleResponse where
  /-- `return err` after a failed `BindAndValidateReq`. -/
  | bindError (err : String)
  /-- `controller.JSONBaseErrorReq(c, err)`; `none` is a nil error. -/
  | JSONBaseErrorReq (err : Option String)
  /-- `controller.JSONNewDataNotExistErr(c, msg)`. -/
  | JSONNewDataNotExistErr (msg : String)
  deriving DecidableEq, Repr

/-- A call of the handler into the storage layer, with its arguments. -/
inductive RoleCall where
  | GetRoleByName (name : String)
  | GetAndCheckInstanceExist (names : List String)
  | CheckIfOperationCodeValid (codes : List Nat)
  | GetAndCheckUserExist (names : List String)
  | GetAndCheckUserGroupExist (names : List String)
  | SaveRoleAndAssociations (role : Role) (instances : Slice Instance) (opCodes : Slice Nat)
      (users : Slice User) (userGroups : Slice UserGroup)
  deriving DecidableEq, Repr

/-- The surroundings of one `UpdateRole` call: the bound request, the path
parameter, the constants `model.Disabled` and `model.Enabled`, and the storage
functions the handler calls. -/
structure RoleEnv where
  BindAndValidateReq : Except String UpdateRoleReqV2
  role_name : String
  Disabled : Nat
  Enabled : Nat
  GetRoleByName : String → Role × Bool × Option String
  GetAndCheckInstanceExist : List String → Except String (Slice Instance)
  CheckIfOperationCodeValid : List Nat → Option String
  GetAndCheckUserExist : List String → Except String (Slice User)
  GetAndCheckUserGroupExist : List String → Except String (Slice UserGroup)
  SaveRoleAndAssociations :
    Role → Slice Instance → Slice Nat → Slice User → Slice UserGroup → Option String

/-- The shape shared by the four blocks "check instances", "check operation
codes", "check users", "check user groups" of `UpdateRole` (role.go, lines
270-282, 285-297, 300-312, 315-327): the local slice starts nil; a nil request
pointer leaves it nil; a pointer to an empty list makes it a non-nil empty
slice; a pointer to a non-empty list runs the check, whose error ends the
handler and whose value is assigned.  The second component is the call made. -/
def resolveAssociation {α β : Type} (requested : Option (List α))
    (check : List α → Except String (Slice β)) (call : List α → RoleCall) :
    Except String (Slice β) × List RoleCall :=
  match requested with
  | none => (.ok none, [])
  | some values =>
    if values.length > 0 then (check values, [call values])
    else (.ok (some []), [])

/-- The check of the operation codes block (role.go, lines 289-292): the
validity check returns only an error; on success the request's own list is
assigned. -/
def checkOperationCodes (env : RoleEnv) (codes : List Nat) : Except String (Slice Nat) :=
  match env.CheckIfOperationCodeValid codes with
  | some err => .error err
  | none => .ok (some codes)

/-- The blocks "update stat" and "update desc" of `UpdateRole` (role.go, lines
252-267). -/
def updateStatAndDesc (env : RoleEnv) (req : UpdateRoleReqV2) (role : Role) : Role :=
  let role : Role :=
    match req.IsDisabled with
    | some isDisabled =>
      if isDisabled then { role with Stat := env.Disabled } else { role with Stat := env.Enabled }
    | none => role
  match req.Desc with
  | some desc => { role with Desc := desc }
  | none => role

/-- `UpdateRole` (role.go, lines 224-333): the response and the calls made, in
order. -/
def UpdateRole (env : RoleEnv) : RoleResponse × List RoleCall :=
  match env.BindAndValidateReq with
  | .error err => (.bindError err, [])
  | .ok req =>
    let roleName := env.role_name
    let found := env.GetRoleByName roleName
    let calls := [RoleCall.GetRoleByName roleName]
    match found.2.2 with
    | some err => (.JSONBaseErrorReq (some err), calls)
    | none =>
      if !found.2.1 then (.JSONNewDataNotExistErr "role is not exist", calls)
      else
        let role := updateStatAndDesc env req found.1
        let instances := resolveAssociation req.Instances env.GetAndCheckInstanceExist
          RoleCall.GetAndCheckInstanceExist
        match instances.1 with
        | .error err => (.JSONBaseErrorReq (some err), calls ++ instances.2)
        | .ok instanceList =>
          let opCodes := resolveAssociation req.OperationCodes (checkOperationCodes env)
            RoleCall.CheckIfOperationCodeValid
          match opCodes.1 with
          | .error err => (.JSONBaseErrorReq (some err), calls ++ instances.2 ++ opCodes.2)
          | .ok opCodeList =>
            let users := resolveAssociation req.Users env.GetAndCheckUserExist
              RoleCall.GetAndCheckUserExist
            match users.1 with
            | .error err =>
              (.JSONBaseErrorReq (some err), calls ++ instances.2 ++ opCodes.2 ++ users.2)
            | .ok userList =>
              let userGroups := resolveAssociation req.UserGroups env.GetAndCheckUserGroupExist
                RoleCall.GetAndCheckUserGroupExist
              match userGroups.1 with
              | .error err =>
                (.JSONBaseErrorReq (some err),
                  calls ++ instances.2 ++ opCodes.2 ++ users.2 ++ userGroups.2)
              | .ok userGroupList =>
                (.JSONBaseErrorReq
                    (env.SaveRoleAndAssociations role instanceList opCodeList userList
                      userGroupList),
                  calls ++ instances.2 ++ opCodes.2 ++ users.2 ++ userGroups.2
                    ++ [RoleCall.SaveRoleAndAssociations role instanceList opCodeList userList
                          userGroupList])

/-- An existing role and a directory in which every name and code checks out. -/
def roleDev : Role := { ID := 4, Name := "dev", Desc := "developers", Stat := 0 }

/-- A request that omits the instances, empties the operation codes, names one
user, omits the user groups, disables the role and leaves the description. -/
def updateRoleReq : UpdateRoleReqV2 :=
  { OperationCodes := some [], Users := some ["alice"], IsDisabled := some true }

def roleEnv : RoleEnv :=
  { BindAndValidateReq := .ok updateRoleReq
    role_name := "dev"
    Disabled := 1
    Enabled := 0
    GetRoleByName := fun _ => (roleDev, true, none)
    GetAndCheckInstanceExist := fun names => .ok (some (names.map fun n => { ID := 1, Name := n }))
    CheckIfOperationCodeValid := fun _ => none
    GetAndCheckUserExist := fun names => .ok (some (names.map fun n => { ID := 1, Name := n }))
    GetAndCheckUserGroupExist := fun names =>
      .ok (some (names.map fun n => { ID := 1, Name := n }))
    SaveRoleAndAssociations := fun _ _ _ _ _ => none }

/-- What `UpdateRole` passes on for one association list: a nil slice when the
list is omitted from the request, a non-nil empty slice when it is present but
empty, and otherwise the value the check returned. -/
def AssociationPassed {α β : Type} (requested : Option (List α))
    (check : List α → Except String (Slice β)) (passed : Slice β) : Prop :=
  match requested with
  | none => passed = none
  | some [] => passed = some []
  | some (value :: values) => check (value :: values) = .ok passed

/-- The truth value of a nullable boolean column: true only when the column is
non-NULL and holds true. -/
def nullBoolIsTrue (n : NullBool) : Bool :=
  n.Valid && n.Bool

/-! ## Lemmas -/

/-- A loop that appends one element per iteration computes a `map`. -/
theorem foldl_append_singleton {α β : Type} (f : α → β) (l : List α) (init : List β) :
    l.foldl (fun acc x => acc ++ [f x]) init = init ++ l.map f := by
  induction l generalizing init with
  | nil => simp
  | cons x xs ih => simp [ih]

theorem generateWorkflowStepByTemplate_eq_map (stepsTemplate : List WorkflowStepTemplate)
    (allInspector : List User) :
    generateWorkflowStepByTemplate stepsTemplate allInspector
      = stepsTemplate.map (fun st => generateWorkflowStep st allInspector) := by
  unfold generateWorkflowStepByTemplate
  rw [foldl_append_singleton (fun st => generateWorkflowStep st allInspector)]
  simp

theorem generateWorkflowStep_templateId (st : WorkflowStepTemplate) (allInspector : List User) :
    (generateWorkflowStep st allInspector).WorkflowStepTemplateId = st.ID := by
  unfold generateWorkflowStep
  split <;> rfl

theorem generateWorkflowStep_assignees (st : WorkflowStepTemplate) (allInspector : List User) :
    (generateWorkflowStep st allInspector).Assignees
      = if st.ApprovedByAuthorized.Bool then allInspector else st.Users := by
  unfold generateWorkflowStep
  split <;> rfl

/-! ## Claims -/

/-- C1: `generateWorkflowStepByTemplate` returns exactly as many steps as there
are step templates, and at every index `i` the generated step carries the ID of
the `i`-th template as its `WorkflowStepTemplateId` (both sides are absent
together beyond the end), so order is preserved and no template is skipped or
duplicated. -/
theorem generateWorkflowStepByTemplate_length_and_binding
    (stepsTemplate : List WorkflowStepTemplate) (allInspector : List User) :
    (generateWorkflowStepByTemplate stepsTemplate allInspector).length = stepsTemplate.length ∧
    ∀ i : Nat,
      ((generateWorkflowStepByTemplate stepsTemplate allInspector)[i]?).map
          (fun step => step.WorkflowStepTemplateId)
        = (stepsTemplate[i]?).map (fun st => st.ID) := by
  rw [generateWorkflowStepByTemplate_eq_map]
  refine ⟨by simp, fun i => ?_⟩
  rw [List.getElem?_map]
  cases stepsTemplate[i]? with
  | none => rfl
  | some st => simp [generateWorkflowStep_templateId]

/-- The code's own test: at every index `i`, the assignees of the `i`-th
generated step are the inspector list when the field `Bool` of the `i`-th
template's `ApprovedByAuthorized` is true, and the template's own `Users`
otherwise, whatever the field `Valid` holds. -/
theorem generateWorkflowStepByTemplate_bool_decides
    (stepsTemplate : List WorkflowStepTemplate) (allInspector : List User) :
    ∀ i : Nat,
      ((generateWorkflowStepByTemplate stepsTemplate allInspector)[i]?).map
          (fun step => step.Assignees)
        = (stepsTemplate[i]?).map
            (fun st => if st.ApprovedByAuthorized.Bool = true then allInspector else st.Users) := by
  intro i
  rw [generateWorkflowStepByTemplate_eq_map, List.getElem?_map]
  cases stepsTemplate[i]? with
  | none => rfl
  | some st => simp [generateWorkflowStep_assignees]

/-- The loop of `NextStep` started at index `k` stops at the least matching
index `i` of the remaining steps and leaves `k + i + 1`. -/
theorem nextIndexLoop_first_match (cur : Nat) (steps : List WorkflowStep) (i k : Nat)
    (hcur : (steps[i]?).map (fun s => s.ID) = some cur)
    (hleast : ∀ j, j < i → (steps[j]?).map (fun s => s.ID) ≠ some cur) :
    nextIndexLoop cur steps k = k + i + 1 := by
  induction steps generalizing i k with
  | nil => simp at hcur
  | cons s rest ih =>
    cases i with
    | zero =>
      have hs : s.ID = cur := by simpa using hcur
      simp [nextIndexLoop, hs]
    | succ n =>
      have hs : s.ID ≠ cur := by simpa using hleast 0 (Nat.succ_pos n)
      have hrest : nextIndexLoop cur rest (k + 1) = k + 1 + n + 1 := by
        apply ih
        · simpa using hcur
        · intro j hj
          simpa using hleast (j + 1) (Nat.succ_lt_succ hj)
      simp only [nextIndexLoop, if_neg hs, hrest]
      omega

theorem isAssignee_iff (user : User) (assignees : List User) :
    isAssignee user assignees = true ↔ ∃ assUser ∈ assignees, assUser.ID = user.ID := by
  induction assignees with
  | nil => simp [isAssignee]
  | cons a rest ih =>
    by_cases h : user.ID = a.ID
    · simp [isAssignee, h]
    · have h' : ¬ a.ID = user.ID := fun e => h e.symm
      simp [isAssignee, h, h', ih]

theorem cloneLoop_eq_map (workflowID : Nat) (steps init : List WorkflowStep)
    (h : ∀ step ∈ steps, step.Template ≠ none) :
    steps.foldlM (cloneWorkflowStepBody workflowID) init
      = some (init ++ steps.map (fun step =>
          ({ WorkflowStepTemplateId := (step.Template.map (fun t => t.ID)).getD 0,
             WorkflowId := workflowID,
             Assignees := step.Assignees } : WorkflowStep))) := by
  induction steps generalizing init with
  | nil => simp
  | cons s rest ih =>
    have hs : s.Template ≠ none := h s (List.mem_cons_self _ _)
    have hrest : ∀ step ∈ rest, step.Template ≠ none :=
      fun step hm => h step (List.mem_cons_of_mem _ hm)
    cases ht : s.Template with
    | none => exact absurd ht hs
    | some t =>
      simp [List.foldlM, cloneWorkflowStepBody, ht, ih _ hrest]

/-- C3: when `i` is the least index whose step has the current step id,
`NextStep` is the step at index `i + 1`: that step when `i + 1` is still inside
the list, and nil when `i` is the last index. -/
theorem NextStep_of_current (w : Workflow) (i : Nat)
    (hcur : (w.Record.Steps[i]?).map (fun s => s.ID) = some w.Record.CurrentWorkflowStepId)
    (hleast : ∀ j, j < i →
      (w.Record.Steps[j]?).map (fun s => s.ID) ≠ some w.Record.CurrentWorkflowStepId) :
    (i + 1 < w.Record.Steps.length →
      ∃ next, w.Record.Steps[i + 1]? = some next ∧ w.NextStep = some next) ∧
    (i + 1 = w.Record.Steps.length → w.NextStep = none) := by
  have hidx := nextIndexLoop_first_match _ _ i 0 hcur hleast
  have hnext : w.NextStep = w.Record.Steps[i + 1]? := by
    unfold Workflow.NextStep
    simp only [hidx, Nat.zero_add]
    split
    · rfl
    · rename_i hgt
      symm
      apply List.getElem?_eq_none
      omega
  refine ⟨fun hlt => ⟨w.Record.Steps[i + 1], ?_, ?_⟩, fun heq => ?_⟩
  · exact List.getElem?_eq_getElem hlt
  · rw [hnext]; exact List.getElem?_eq_getElem hlt
  · rw [hnext]; exact List.getElem?_eq_none (by omega)

theorem NextStep_of_current_witness :
    (workflowAtStepOne.Record.Steps[0]?).map (fun s => s.ID)
      = some workflowAtStepOne.Record.CurrentWorkflowStepId ∧
    (∀ j, j < 0 → (workflowAtStepOne.Record.Steps[j]?).map (fun s => s.ID)
      ≠ some workflowAtStepOne.Record.CurrentWorkflowStepId) ∧
    (0 + 1 < workflowAtStepOne.Record.Steps.length →
      ∃ next, workflowAtStepOne.Record.Steps[0 + 1]? = some next ∧
        workflowAtStepOne.NextStep = some next) ∧
    (0 + 1 = workflowAtStepOne.Record.Steps.length → workflowAtStepOne.NextStep = none) :=
  ⟨by decide, by intro j hj; omega,
    NextStep_of_current workflowAtStepOne 0 (by decide) (by intro j hj; omega)⟩

/-- C4: `IsOperationUser` is true exactly when the record has a current step
and some assignee of that step has the user's ID; it is false whenever there is
no current step, and false whenever no assignee of the current step has the
user's ID, whatever the other steps of the record hold. -/
theorem IsOperationUser_iff (w : Workflow) (user : User) :
    (w.IsOperationUser user = true ↔
      ∃ currentStep, w.Record.CurrentStep = some currentStep ∧
        ∃ assUser ∈ currentStep.Assignees, assUser.ID = user.ID) ∧
    (w.Record.CurrentStep = none → w.IsOperationUser user = false) ∧
    (∀ currentStep, w.Record.CurrentStep = some currentStep →
      (∀ assUser ∈ currentStep.Assignees, assUser.ID ≠ user.ID) →
      w.IsOperationUser user = false) := by
  unfold Workflow.IsOperationUser Workflow.CurrentStep
  cases hcs : w.Record.CurrentStep with
  | none => simp
  | some cs =>
    refine ⟨?_, by simp, ?_⟩
    · simp [isAssignee_iff]
    · intro currentStep hEq hno
      cases hEq
      have hiff := isAssignee_iff user cs.Assignees
      cases hb : isAssignee user cs.Assignees with
      | false => exact hb
      | true =>
        obtain ⟨a, ha, hid⟩ := hiff.mp hb
        exact absurd hid (hno a ha)

/-- C5: when every step of the record has a loaded template, `cloneWorkflowStep`
returns (does not panic) a list as long as the record's step list whose `i`-th
element carries the ID of the `i`-th step's template, the workflow's ID and the
`i`-th step's assignee list, and otherwise only zero values: no id, no state, no
operation user, no operate time, no reason. -/
theorem cloneWorkflowStep_spec (w : Workflow)
    (h : ∀ step ∈ w.Record.Steps, step.Template ≠ none) :
    ∃ clones : List WorkflowStep, w.cloneWorkflowStep = some clones ∧
      clones.length = w.Record.Steps.length ∧
      ∀ (i : Nat) (step : WorkflowStep) (template : WorkflowStepTemplate),
        w.Record.Steps[i]? = some step → step.Template = some template →
        ∃ clone : WorkflowStep, clones[i]? = some clone ∧
          clone.WorkflowStepTemplateId = template.ID ∧
          clone.WorkflowId = w.ID ∧
          clone.Assignees = step.Assignees ∧
          clone.ID = 0 ∧ clone.State = "" ∧ clone.OperationUserId = 0 ∧
          clone.OperationUser = none ∧ clone.OperateAt = none ∧ clone.Reason = "" := by
  have hloop := cloneLoop_eq_map w.ID w.Record.Steps [] h
  refine ⟨_, hloop, by simp, ?_⟩
  intro i step template hstep htemplate
  refine Exists.intro
    { WorkflowStepTemplateId := template.ID, WorkflowId := w.ID, Assignees := step.Assignees }
    (And.intro ?_ ?_)
  · simp [List.getElem?_map, hstep, htemplate]
  · simp

theorem cloneWorkflowStep_spec_witness :
    (∀ step ∈ workflowAtStepOne.Record.Steps, step.Template ≠ none) ∧
    ∃ clones : List WorkflowStep, workflowAtStepOne.cloneWorkflowStep = some clones ∧
      clones.length = workflowAtStepOne.Record.Steps.length ∧
      ∀ (i : Nat) (step : WorkflowStep) (template : WorkflowStepTemplate),
        workflowAtStepOne.Record.Steps[i]? = some step → step.Template = some template →
        ∃ clone : WorkflowStep, clones[i]? = some clone ∧
          clone.WorkflowStepTemplateId = template.ID ∧
          clone.WorkflowId = workflowAtStepOne.ID ∧
          clone.Assignees = step.Assignees ∧
          clone.ID = 0 ∧ clone.State = "" ∧ clone.OperationUserId = 0 ∧
          clone.OperationUser = none ∧ clone.OperateAt = none ∧ clone.Reason = "" :=
  ⟨by decide, cloneWorkflowStep_spec workflowAtStepOne (by decide)⟩

theorem IsFirstRecord_eq_head (w : Workflow) (record : WorkflowRecord) :
    w.IsFirstRecord record
      = match w.loadedRecords with
        | first :: _ => decide (record.addr = first.addr)
        | [] => false := by
  unfold Workflow.IsFirstRecord Workflow.loadedRecords
  simp

/-- C7, as stated, fails: with the later of two superseded records held first in
the loaded history, `IsFirstRecord` answers true for it although the other
history record was created before it. -/
theorem IsFirstRecord_unordered_history_counterexample :
    recordLater ∈ workflowHistoryUnordered.loadedRecords ∧
    ¬ (workflowHistoryUnordered.IsFirstRecord recordLater = true ↔
        IsEarliest recordLater workflowHistoryUnordered.loadedRecords) := by
  decide

/-- C7, amended: when the loaded records (history, then the current record) are
in strictly ascending order of creation and distinct records sit at distinct
addresses, `IsFirstRecord r` is true for a record `r` among them exactly when
`r` is the earliest of them by creation timestamp. -/
theorem IsFirstRecord_iff_earliest_of_ordered (w : Workflow) (record : WorkflowRecord)
    (hmem : record ∈ w.loadedRecords)
    (hsorted : w.loadedRecords.Pairwise (fun a b => a.CreatedAt < b.CreatedAt))
    (haddr : ∀ a ∈ w.loadedRecords, ∀ b ∈ w.loadedRecords, a.addr = b.addr → a = b) :
    w.IsFirstRecord record = true ↔ IsEarliest record w.loadedRecords := by
  rw [IsFirstRecord_eq_head]
  cases hl : w.loadedRecords with
  | nil => simp [hl] at hmem
  | cons first tail =>
    rw [hl] at hmem hsorted haddr
    have hfirst : ∀ other ∈ tail, first.CreatedAt < other.CreatedAt :=
      (List.pairwise_cons.mp hsorted).1
    simp only [decide_eq_true_eq]
    constructor
    · intro heq other hother
      have hrec : record = first :=
        haddr record hmem first (List.mem_cons_self _ _) heq
      subst hrec
      rcases List.mem_cons.mp hother with rfl | htail
      · exact Nat.le_refl _
      · exact Nat.le_of_lt (hfirst other htail)
    · intro hearliest
      rcases List.mem_cons.mp hmem with rfl | htail
      · rfl
      · have h1 := hfirst record htail
        have h2 := hearliest first (List.mem_cons_self _ _)
        omega

theorem IsFirstRecord_iff_earliest_of_ordered_witness :
    recordEarlier ∈ workflowHistoryOrdered.loadedRecords ∧
    workflowHistoryOrdered.loadedRecords.Pairwise (fun a b => a.CreatedAt < b.CreatedAt) ∧
    (∀ a ∈ workflowHistoryOrdered.loadedRecords, ∀ b ∈ workflowHistoryOrdered.loadedRecords,
      a.addr = b.addr → a = b) ∧
    (workflowHistoryOrdered.IsFirstRecord recordEarlier = true ↔
      IsEarliest recordEarlier workflowHistoryOrdered.loadedRecords) :=
  ⟨by decide, by decide, by decide,
    IsFirstRecord_iff_earliest_of_ordered workflowHistoryOrdered recordEarlier
      (by decide) (by decide) (by decide)⟩

/-! ### The store: single statements -/

theorem nextStatement_noFault (faults : List Bool) (h : NoFault faults) :
    ∃ rest, nextStatement faults = some rest ∧ NoFault rest := by
  cases faults with
  | nil => exact ⟨[], rfl, h⟩
  | cons b rest =>
    have hb : b = false := h b (List.mem_cons_self _ _)
    subst hb
    exact ⟨rest, rfl, fun c hc => h c (List.mem_cons_of_mem _ hc)⟩

theorem Tx.exec_db (tx tx' : Tx) (effect : DB → DB) (h : tx.exec effect = some tx') :
    tx'.db = effect tx.db := by
  unfold Tx.exec at h
  split at h
  · cases h
  · cases h; rfl

theorem Tx.exec_noFault (tx : Tx) (effect : DB → DB) (h : NoFault tx.faults) :
    ∃ tx', tx.exec effect = some tx' ∧ NoFault tx'.faults := by
  obtain ⟨rest, hrest, hno⟩ := nextStatement_noFault tx.faults h
  exact ⟨{ db := effect tx.db, faults := rest }, by simp [Tx.exec, hrest], hno⟩

theorem Tx.commit_noFault (tx : Tx) (h : NoFault tx.faults) : tx.commit = some tx.db := by
  obtain ⟨rest, hrest, _⟩ := nextStatement_noFault tx.faults h
  simp [Tx.commit, hrest]

theorem Tx.commit_ok (tx : Tx) (db' : DB) (h : tx.commit = some db') : db' = tx.db := by
  unfold Tx.commit at h
  cases hn : nextStatement tx.faults with
  | none => simp [hn] at h
  | some rest =>
    simp [hn] at h
    exact h.symm

/-! ### The store: the loop over the generated steps -/

theorem stepRows_length (now recordID workflowID : Nat) (steps : List WorkflowStep) (k : Nat) :
    (stepRows now recordID workflowID k steps).length = steps.length := by
  induction steps generalizing k with
  | nil => rfl
  | cons step rest ih => simp [stepRows, ih]

theorem stepRows_mem (now recordID workflowID : Nat) (steps : List WorkflowStep) (k : Nat) :
    ∀ row ∈ stepRows now recordID workflowID k steps,
      row.WorkflowRecordId = recordID ∧ row.WorkflowId = workflowID ∧
      k ≤ row.ID ∧ row.ID < k + steps.length := by
  induction steps generalizing k with
  | nil => intro row hrow; simp [stepRows] at hrow
  | cons step rest ih =>
    intro row hrow
    simp only [stepRows, List.mem_cons] at hrow
    rcases hrow with rfl | hrest
    · simp [stepRow]
    · obtain ⟨h1, h2, h3, h4⟩ := ih (k + 1) row hrest
      refine ⟨h1, h2, by omega, ?_⟩
      simp only [List.length_cons]
      omega

theorem stepRows_getElem? (now recordID workflowID : Nat) (steps : List WorkflowStep)
    (k i : Nat) :
    (stepRows now recordID workflowID k steps)[i]?
      = (steps[i]?).map (stepRow now recordID workflowID (k + i)) := by
  induction steps generalizing k i with
  | nil => simp [stepRows]
  | cons step rest ih =>
    cases i with
    | zero => simp [stepRows]
    | succ n =>
      simp only [stepRows, List.getElem?_cons_succ, ih]
      have : k + 1 + n = k + (n + 1) := by omega
      rw [this]

/-- The loop over the generated steps, when it succeeds, appends one row per
step to `workflow_steps`, rewrites only the relation `workflow_step_user` and
advances the step counter. -/
theorem createWorkflowSteps_ok (now recordID workflowID : Nat) (steps : List WorkflowStep) :
    ∀ (tx tx' : Tx) (saved : List WorkflowStep),
      createWorkflowSteps now recordID workflowID tx steps = some (tx', saved) →
      saved = stepRows now recordID workflowID tx.db.nextStepId steps ∧
      tx'.db = { tx.db with
        workflow_steps :=
          tx.db.workflow_steps ++ stepRows now recordID workflowID tx.db.nextStepId steps
        workflow_step_user := assigneeRows tx.db.workflow_step_user tx.db.nextStepId steps
        nextStepId := tx.db.nextStepId + steps.length } := by
  induction steps with
  | nil =>
    intro tx tx' saved h
    simp only [createWorkflowSteps, Option.some.injEq, Prod.mk.injEq] at h
    obtain ⟨rfl, rfl⟩ := h
    simp [stepRows, assigneeRows]
  | cons step rest ih =>
    intro tx tx' saved h
    simp only [createWorkflowSteps, Tx.saveStep, Tx.replaceAssignees] at h
    cases h1 : tx.exec (fun db =>
        { db with
          workflow_steps := db.workflow_steps ++
            [stepRow now recordID workflowID tx.db.nextStepId step]
          nextStepId := db.nextStepId + 1 }) with
    | none =>
      simp [stepRow] at h1
      simp [h1] at h
    | some tx1 =>
      have hdb1 := Tx.exec_db _ _ _ h1
      simp only [stepRow] at h1
      simp only [h1, Option.map_some'] at h
      split at h
      · cases h
      · rename_i tx2 h2
        split at h
        · cases h
        · rename_i tx3 saved3 h3
          simp only [Option.some.injEq, Prod.mk.injEq] at h
          obtain ⟨rfl, rfl⟩ := h
          have hdb2 := Tx.exec_db _ _ _ h2
          obtain ⟨hs, hdb3⟩ := ih _ _ _ h3
          have hk : tx2.db.nextStepId = tx.db.nextStepId + 1 := by rw [hdb2, hdb1]
          rw [hk] at hs hdb3
          refine ⟨?_, ?_⟩
          · rw [hs]; rfl
          · rw [hdb3, hdb2, hdb1]
            simp [stepRows, assigneeRows, stepRow, Nat.add_assoc, Nat.add_comm]
            omega

theorem createWorkflowSteps_noFault (now recordID workflowID : Nat)
    (steps : List WorkflowStep) :
    ∀ tx : Tx, NoFault tx.faults →
      ∃ tx' saved, createWorkflowSteps now recordID workflowID tx steps = some (tx', saved) ∧
        NoFault tx'.faults := by
  induction steps with
  | nil => intro tx h; exact ⟨tx, [], rfl, h⟩
  | cons step rest ih =>
    intro tx h
    simp only [createWorkflowSteps, Tx.saveStep, Tx.replaceAssignees]
    obtain ⟨tx1, h1, hno1⟩ := Tx.exec_noFault tx _ h
    rw [h1]
    simp only [Option.map_some']
    obtain ⟨tx2, h2, hno2⟩ := Tx.exec_noFault tx1 _ hno1
    rw [h2]
    obtain ⟨tx3, saved, h3, hno3⟩ := ih tx2 hno2
    simp only [h3]
    exact ⟨tx3, _, rfl, hno3⟩

/-! ### The store: `CreateWorkflow` as a whole -/

theorem Tx.saveRecord_ok (tx tx' : Tx) (now : Nat) (record saved : WorkflowRecord)
    (h : tx.saveRecord now record = some (tx', saved)) :
    saved = { record with
              ID := tx.db.nextRecordId
              CreatedAt := now
              Status := if record.Status = "" then WorkflowStatusRunning else record.Status } ∧
    tx'.db = { tx.db with
               workflow_records := tx.db.workflow_records ++ [saved]
               nextRecordId := tx.db.nextRecordId + 1 } := by
  unfold Tx.saveRecord at h
  simp only [Option.map_eq_some'] at h
  obtain ⟨tx1, hexec, hpair⟩ := h
  cases hpair
  exact ⟨rfl, Tx.exec_db _ _ _ hexec⟩

theorem Tx.saveWorkflow_ok (tx tx' : Tx) (now : Nat) (workflow saved : Workflow)
    (h : tx.saveWorkflow now workflow = some (tx', saved)) :
    saved = { workflow with ID := tx.db.nextWorkflowId, CreatedAt := now } ∧
    tx'.db = { tx.db with
               workflows := tx.db.workflows ++ [saved]
               nextWorkflowId := tx.db.nextWorkflowId + 1 } := by
  unfold Tx.saveWorkflow at h
  simp only [Option.map_eq_some'] at h
  obtain ⟨tx1, hexec, hpair⟩ := h
  cases hpair
  exact ⟨rfl, Tx.exec_db _ _ _ hexec⟩

/-- A call of `CreateWorkflow` that returns no error has read an inspector list
and committed exactly the closed form `createdDB`. -/
theorem CreateWorkflow_ok (env : Env) (db db' : DB) (subject desc : String) (user : User)
    (task : Task) (stepTemplates : List WorkflowStepTemplate)
    (h : CreateWorkflow env db subject desc user task stepTemplates = (none, db')) :
    ∃ inspector,
      env.GetUsersByOperationCode task.Instance env.OP_WORKFLOW_AUDIT = .ok inspector ∧
      db' = createdDB env.now db subject desc user task
              (generateWorkflowStepByTemplate stepTemplates inspector) := by
  unfold CreateWorkflow at h
  split at h
  · simp at h
  · rename_i inspector hinsp
    refine ⟨inspector, hinsp, ?_⟩
    simp only at h
    split at h
    · simp at h
    · rename_i tx1 record1 h1
      obtain ⟨hrec, hdb1⟩ := Tx.saveRecord_ok _ _ _ _ _ h1
      split at h
      · simp at h
      · rename_i tx2 workflow2 h2
        obtain ⟨hwf, hdb2⟩ := Tx.saveWorkflow_ok _ _ _ _ _ h2
        split at h
        · simp at h
        · rename_i tx3 steps3 h3
          obtain ⟨hsteps, hdb3⟩ := createWorkflowSteps_ok _ _ _ _ _ _ _ h3
          split at h
          · simp at h
          · rename_i tx4 h4
            split at h
            · simp at h
            · rename_i committed h5
              simp only [Prod.mk.injEq, true_and] at h
              subst h
              have hc := Tx.commit_ok _ _ h5
              subst hsteps hrec hwf
              simp only at hdb1 hdb2 hdb3 h4
              cases hg : generateWorkflowStepByTemplate stepTemplates inspector with
              | nil =>
                rw [hg] at h4 hdb3
                simp only [stepRows, Option.some.injEq] at h4
                subst h4
                rw [hc, hdb3, hdb2, hdb1]
                simp [createdDB, insertedRecord, createdWorkflow, stepRows, assigneeRows]
              | cons g rest =>
                rw [hg] at h4 hdb3
                simp only [stepRows, Tx.updateCurrentStep] at h4
                have hdb4 := Tx.exec_db _ _ _ h4
                rw [hc, hdb4, hdb3, hdb2, hdb1]
                simp [createdDB, insertedRecord, createdWorkflow, stepRows, assigneeRows, stepRow]

/-- A call of `CreateWorkflow` whose inspector query succeeds and none of whose
statements fails returns no error. -/
theorem CreateWorkflow_noFault (env : Env) (db : DB) (subject desc : String) (user : User)
    (task : Task) (stepTemplates : List WorkflowStepTemplate) (inspector : List User)
    (hinsp : env.GetUsersByOperationCode task.Instance env.OP_WORKFLOW_AUDIT = .ok inspector)
    (hno : NoFault env.faults) :
    CreateWorkflow env db subject desc user task stepTemplates
      = (none, createdDB env.now db subject desc user task
                (generateWorkflowStepByTemplate stepTemplates inspector)) := by
  have hsome : ∃ db', CreateWorkflow env db subject desc user task stepTemplates = (none, db') := by
    unfold CreateWorkflow
    simp only [hinsp, Tx.saveRecord, Tx.saveWorkflow]
    obtain ⟨tx1, h1, hno1⟩ := Tx.exec_noFault { db := db, faults := env.faults } _ hno
    rw [h1]
    simp only [Option.map_some']
    obtain ⟨tx2, h2, hno2⟩ := Tx.exec_noFault tx1 _ hno1
    rw [h2]
    simp only [Option.map_some']
    obtain ⟨tx3, saved, h3, hno3⟩ := createWorkflowSteps_noFault _ _ _ _ tx2 hno2
    rw [h3]
    simp only
    cases saved with
    | nil =>
      simp only [Tx.commit_noFault tx3 hno3]
      exact ⟨_, rfl⟩
    | cons first rest =>
      simp only [Tx.updateCurrentStep]
      obtain ⟨tx4, h4, hno4⟩ := Tx.exec_noFault tx3 _ hno3
      rw [h4]
      simp only [Tx.commit_noFault tx4 hno4]
      exact ⟨_, rfl⟩
  obtain ⟨db', hdb'⟩ := hsome
  obtain ⟨inspector', hinsp', hcreated⟩ := CreateWorkflow_ok _ _ _ _ _ _ _ _ hdb'
  rw [hinsp] at hinsp'
  cases hinsp'
  rw [hdb', hcreated]

/-- In a well-formed database the `UPDATE` of the current step id reaches the
freshly inserted record row and no other. -/
theorem createdDB_records (now : Nat) (db : DB) (subject desc : String) (user : User)
    (task : Task) (steps : List WorkflowStep) (hwf : db.WF) :
    (createdDB now db subject desc user task steps).workflow_records
      = db.workflow_records ++
          [{ insertedRecord now db task with
             CurrentWorkflowStepId := if steps = [] then 0 else db.nextStepId }] := by
  cases steps with
  | nil => simp [createdDB, insertedRecord]
  | cons step rest =>
    have hold : ∀ r ∈ db.workflow_records, r.ID ≠ db.nextRecordId :=
      fun r hr => Nat.ne_of_lt (hwf.2.2.2.2.1 r hr)
    have hmap : db.workflow_records.map (fun r =>
        if r.ID = db.nextRecordId then { r with CurrentWorkflowStepId := db.nextStepId } else r)
        = db.workflow_records := by
      conv_rhs => rw [← List.map_id db.workflow_records]
      apply List.map_congr_left
      intro r hr
      simp [hold r hr]
    simp [createdDB, insertedRecord, hmap]

/-- C8: when `CreateWorkflow` returns no error for a non-empty list of `N` step
templates (the database being well-formed), the committed database is the old
one plus exactly one record row with a new id (for the given task, status
`on_process`), one workflow row with a new id that points at that record, and
`N` step rows with new ids that all carry the record's id and the workflow's
id; the record's current step id is the id of the first of these steps. -/
theorem CreateWorkflow_creates_record_and_steps (env : Env) (db db' : DB)
    (subject desc : String) (user : User) (task : Task)
    (stepTemplates : List WorkflowStepTemplate)
    (hwf : db.WF) (hne : stepTemplates ≠ [])
    (hok : CreateWorkflow env db subject desc user task stepTemplates = (none, db')) :
    ∃ (record : WorkflowRecord) (workflow : Workflow) (steps : List WorkflowStep),
      db'.workflow_records = db.workflow_records ++ [record] ∧
      (∀ old ∈ db.workflow_records, old.ID ≠ record.ID) ∧
      record.TaskId = task.ID ∧ record.Status = WorkflowStatusRunning ∧
      db'.workflows = db.workflows ++ [workflow] ∧
      (∀ old ∈ db.workflows, old.ID ≠ workflow.ID) ∧
      workflow.WorkflowRecordId = record.ID ∧
      db'.workflow_steps = db.workflow_steps ++ steps ∧
      steps.length = stepTemplates.length ∧
      (∀ step ∈ steps,
        step.WorkflowRecordId = record.ID ∧ step.WorkflowId = workflow.ID ∧
        ∀ old ∈ db.workflow_steps, old.ID ≠ step.ID) ∧
      (steps.head?).map (fun step => step.ID) = some record.CurrentWorkflowStepId := by
  obtain ⟨inspector, _, hdb'⟩ := CreateWorkflow_ok _ _ _ _ _ _ _ _ hok
  have hlen : (generateWorkflowStepByTemplate stepTemplates inspector).length
      = stepTemplates.length :=
    by rw [generateWorkflowStepByTemplate_eq_map]; simp
  have hgen : generateWorkflowStepByTemplate stepTemplates inspector ≠ [] := by
    intro hnil
    rw [hnil] at hlen
    exact hne (List.length_eq_zero.mp hlen.symm)
  have hwf0 := hwf
  obtain ⟨_, _, _, hworkflows, hrecords, hsteps⟩ := hwf
  refine ⟨{ insertedRecord env.now db task with CurrentWorkflowStepId := db.nextStepId },
    createdWorkflow env.now db subject desc user,
    stepRows env.now db.nextRecordId db.nextWorkflowId db.nextStepId
      (generateWorkflowStepByTemplate stepTemplates inspector), ?_, ?_, rfl, rfl, ?_, ?_, rfl,
    ?_, ?_, ?_, ?_⟩
  · rw [hdb', createdDB_records _ _ _ _ _ _ _ hwf0]
    simp [hgen]
  · intro old hold
    exact Nat.ne_of_lt (hrecords old hold)
  · rw [hdb']; rfl
  · intro old hold
    exact Nat.ne_of_lt (hworkflows old hold)
  · rw [hdb']; rfl
  · rw [stepRows_length, hlen]
  · intro step hstep
    obtain ⟨h1, h2, h3, _⟩ := stepRows_mem _ _ _ _ _ step hstep
    refine ⟨h1, h2, fun old hold => ?_⟩
    have := hsteps old hold
    omega
  · cases hg : generateWorkflowStepByTemplate stepTemplates inspector with
    | nil => exact absurd hg hgen
    | cons g rest => simp [stepRows, stepRow]

theorem CreateWorkflow_creates_record_and_steps_witness :
    dbOneWorkflow.WF ∧ [templateAuthorized, templateExecute] ≠ [] ∧
    CreateWorkflow envInspectors dbOneWorkflow "add index" "" userBob taskNine
      [templateAuthorized, templateExecute] = (none, dbTwoWorkflows) ∧
    ∃ (record : WorkflowRecord) (workflow : Workflow) (steps : List WorkflowStep),
      dbTwoWorkflows.workflow_records = dbOneWorkflow.workflow_records ++ [record] ∧
      (∀ old ∈ dbOneWorkflow.workflow_records, old.ID ≠ record.ID) ∧
      record.TaskId = taskNine.ID ∧ record.Status = WorkflowStatusRunning ∧
      dbTwoWorkflows.workflows = dbOneWorkflow.workflows ++ [workflow] ∧
      (∀ old ∈ dbOneWorkflow.workflows, old.ID ≠ workflow.ID) ∧
      workflow.WorkflowRecordId = record.ID ∧
      dbTwoWorkflows.workflow_steps = dbOneWorkflow.workflow_steps ++ steps ∧
      steps.length = [templateAuthorized, templateExecute].length ∧
      (∀ step ∈ steps,
        step.WorkflowRecordId = record.ID ∧ step.WorkflowId = workflow.ID ∧
        ∀ old ∈ dbOneWorkflow.workflow_steps, old.ID ≠ step.ID) ∧
      (steps.head?).map (fun step => step.ID) = some record.CurrentWorkflowStepId :=
  ⟨by decide, by decide, by rfl,
    CreateWorkflow_creates_record_and_steps envInspectors dbOneWorkflow dbTwoWorkflows
      "add index" "" userBob taskNine [templateAuthorized, templateExecute]
      (by decide) (by decide) (by rfl)⟩

/-! ### The relation `workflow_step_user` after the loop -/

theorem assigneeRows_below (steps : List WorkflowStep) :
    ∀ (rows : List WorkflowStepUser) (k : Nat) (row : WorkflowStepUser),
      row.workflow_step_id < k → (row ∈ assigneeRows rows k steps ↔ row ∈ rows) := by
  induction steps with
  | nil => intro rows k row _; rfl
  | cons step rest ih =>
    intro rows k row hlt
    have hne : row.workflow_step_id ≠ k := Nat.ne_of_lt hlt
    simp only [assigneeRows]
    rw [ih _ (k + 1) row (by omega)]
    simp only [List.mem_append, List.mem_filter, List.mem_dedup, List.mem_map,
      decide_eq_true_eq]
    constructor
    · rintro (⟨h, _⟩ | ⟨u, _, rfl⟩)
      · exact h
      · exact absurd rfl hne
    · intro h
      exact Or.inl ⟨h, hne⟩

theorem assigneeRows_no_assignee (steps : List WorkflowStep) :
    ∀ (rows : List WorkflowStepUser) (k i : Nat) (step : WorkflowStep),
      steps[i]? = some step → step.Assignees = [] →
      ∀ row ∈ assigneeRows rows k steps, row.workflow_step_id ≠ k + i := by
  induction steps with
  | nil => intro rows k i step h; simp at h
  | cons s rest ih =>
    intro rows k i step hstep hnone row hrow
    cases i with
    | zero =>
      simp only [List.getElem?_cons_zero, Option.some.injEq] at hstep
      subst hstep
      simp only [assigneeRows, hnone, List.map_nil, List.dedup_nil, List.append_nil] at hrow
      intro heq
      have hlt : row.workflow_step_id < k + 1 := by omega
      have hmem := (assigneeRows_below rest _ (k + 1) row hlt).mp hrow
      simp only [List.mem_filter, decide_eq_true_eq] at hmem
      exact hmem.2 (by omega)
    | succ n =>
      simp only [List.getElem?_cons_succ] at hstep
      simp only [assigneeRows] at hrow
      have := ih _ (k + 1) n step hstep hnone row hrow
      omega

/-- C9, as stated, fails: called with an empty step-template list on a database
where no statement fails, `CreateWorkflow` returns no error and the committed
database holds one more workflow and one more record than before. -/
theorem CreateWorkflow_empty_templates_counterexample :
    (CreateWorkflow envInspectors dbOneWorkflow "add index" "" userBob taskNine []).1 = none ∧
    (CreateWorkflow envInspectors dbOneWorkflow "add index" "" userBob taskNine []).2.workflows.length
      = dbOneWorkflow.workflows.length + 1 ∧
    (CreateWorkflow envInspectors dbOneWorkflow "add index" "" userBob taskNine []).2.workflow_records.length
      = dbOneWorkflow.workflow_records.length + 1 := by
  decide

/-- C9, amended: `CreateWorkflow` with an empty step-template list is not
refused.  When the inspector query succeeds and no storage statement fails it
returns no error and commits one new workflow row pointing at one new record
row (for the task, status `on_process`, current step id left at zero); it
stores no step and no assignee. -/
theorem CreateWorkflow_empty_templates (env : Env) (db : DB) (subject desc : String)
    (user : User) (task : Task) (inspector : List User)
    (hinsp : env.GetUsersByOperationCode task.Instance env.OP_WORKFLOW_AUDIT = .ok inspector)
    (hno : NoFault env.faults) :
    ∃ (db' : DB) (record : WorkflowRecord) (workflow : Workflow),
      CreateWorkflow env db subject desc user task [] = (none, db') ∧
      db'.workflow_records = db.workflow_records ++ [record] ∧
      record.TaskId = task.ID ∧ record.Status = WorkflowStatusRunning ∧
      record.CurrentWorkflowStepId = 0 ∧
      db'.workflows = db.workflows ++ [workflow] ∧
      workflow.WorkflowRecordId = record.ID ∧
      db'.workflow_steps = db.workflow_steps ∧
      db'.workflow_step_user = db.workflow_step_user := by
  have hrun := CreateWorkflow_noFault env db subject desc user task [] inspector hinsp hno
  refine ⟨_, insertedRecord env.now db task, createdWorkflow env.now db subject desc user,
    hrun, ?_, rfl, rfl, rfl, ?_, rfl, ?_, ?_⟩
  · simp [createdDB, generateWorkflowStepByTemplate]
  · simp [createdDB]
  · simp [createdDB, generateWorkflowStepByTemplate, stepRows]
  · simp [createdDB, generateWorkflowStepByTemplate, assigneeRows]

theorem CreateWorkflow_empty_templates_witness :
    envInspectors.GetUsersByOperationCode taskNine.Instance envInspectors.OP_WORKFLOW_AUDIT
      = .ok [userEve, userFrank] ∧
    NoFault envInspectors.faults ∧
    ∃ (db' : DB) (record : WorkflowRecord) (workflow : Workflow),
      CreateWorkflow envInspectors dbOneWorkflow "add index" "" userBob taskNine []
        = (none, db') ∧
      db'.workflow_records = dbOneWorkflow.workflow_records ++ [record] ∧
      record.TaskId = taskNine.ID ∧ record.Status = WorkflowStatusRunning ∧
      record.CurrentWorkflowStepId = 0 ∧
      db'.workflows = dbOneWorkflow.workflows ++ [workflow] ∧
      workflow.WorkflowRecordId = record.ID ∧
      db'.workflow_steps = dbOneWorkflow.workflow_steps ∧
      db'.workflow_step_user = dbOneWorkflow.workflow_step_user :=
  ⟨rfl, by decide,
    CreateWorkflow_empty_templates envInspectors dbOneWorkflow "add index" "" userBob taskNine
      [userEve, userFrank] rfl (by decide)⟩

/-- C10, as stated, fails: with a step template whose `approved_by_authorized`
is true and a directory in which nobody holds `WORKFLOW_AUDIT`,
`CreateWorkflow` returns no error; the committed database holds the new
workflow, and the step of that template (id 3, template 21) has no row in
`workflow_step_user`. -/
theorem CreateWorkflow_without_inspector_counterexample :
    templateAuthorized.ApprovedByAuthorized = { Valid := true, Bool := true } ∧
    envNoInspector.GetUsersByOperationCode taskNine.Instance envNoInspector.OP_WORKFLOW_AUDIT
      = .ok [] ∧
    (CreateWorkflow envNoInspector dbOneWorkflow "add index" "" userBob taskNine
      [templateAuthorized, templateExecute]).1 = none ∧
    (CreateWorkflow envNoInspector dbOneWorkflow "add index" "" userBob taskNine
      [templateAuthorized, templateExecute]).2.workflows.map (fun w => w.ID) = [1, 2] ∧
    (CreateWorkflow envNoInspector dbOneWorkflow "add index" "" userBob taskNine
      [templateAuthorized, templateExecute]).2.workflow_steps.map
        (fun step => (step.ID, step.WorkflowStepTemplateId)) = [(1, 11), (2, 12), (3, 21), (4, 12)] ∧
    (CreateWorkflow envNoInspector dbOneWorkflow "add index" "" userBob taskNine
      [templateAuthorized, templateExecute]).2.workflow_step_user = [⟨1, 1⟩, ⟨2, 3⟩, ⟨4, 3⟩] := by
  refine ⟨rfl, rfl, ?_, ?_, ?_, ?_⟩ <;> decide

/-- C10, amended: `CreateWorkflow` is not refused when nobody holds
`WORKFLOW_AUDIT` on the task's instance.  When the inspector query returns the
empty list and no storage statement fails, it returns no error, commits one new
workflow row and one step row per step template, and every step whose template
has `approved_by_authorized` true is stored without any assignee. -/
theorem CreateWorkflow_without_inspector (env : Env) (db : DB) (subject desc : String)
    (user : User) (task : Task) (stepTemplates : List WorkflowStepTemplate)
    (hinsp : env.GetUsersByOperationCode task.Instance env.OP_WORKFLOW_AUDIT = .ok [])
    (hno : NoFault env.faults) :
    ∃ (db' : DB) (workflow : Workflow) (steps : List WorkflowStep),
      CreateWorkflow env db subject desc user task stepTemplates = (none, db') ∧
      db'.workflows = db.workflows ++ [workflow] ∧
      db'.workflow_steps = db.workflow_steps ++ steps ∧
      steps.length = stepTemplates.length ∧
      ∀ (i : Nat) (st : WorkflowStepTemplate) (step : WorkflowStep),
        stepTemplates[i]? = some st → st.ApprovedByAuthorized.Bool = true →
        steps[i]? = some step →
        step.WorkflowStepTemplateId = st.ID ∧ step.WorkflowId = workflow.ID ∧
        ∀ row ∈ db'.workflow_step_user, row.workflow_step_id ≠ step.ID := by
  have hrun := CreateWorkflow_noFault env db subject desc user task stepTemplates [] hinsp hno
  refine ⟨_, createdWorkflow env.now db subject desc user,
    stepRows env.now db.nextRecordId db.nextWorkflowId db.nextStepId
      (generateWorkflowStepByTemplate stepTemplates []), hrun, rfl, rfl, ?_, ?_⟩
  · rw [stepRows_length, generateWorkflowStepByTemplate_eq_map]
    simp
  · intro i st step hst hauth hstep
    have hgen : (generateWorkflowStepByTemplate stepTemplates [])[i]?
        = some (generateWorkflowStep st []) := by
      rw [generateWorkflowStepByTemplate_eq_map, List.getElem?_map, hst]
      rfl
    rw [stepRows_getElem?, hgen] at hstep
    simp only [Option.map_some', Option.some.injEq] at hstep
    subst hstep
    refine ⟨?_, rfl, ?_⟩
    · simp [stepRow, generateWorkflowStep_templateId]
    · intro row hrow
      have hnone : (generateWorkflowStep st []).Assignees = [] := by
        rw [generateWorkflowStep_assignees, if_pos hauth]
      exact assigneeRows_no_assignee _ _ _ _ _ hgen hnone row hrow

theorem CreateWorkflow_without_inspector_witness :
    envNoInspector.GetUsersByOperationCode taskNine.Instance envNoInspector.OP_WORKFLOW_AUDIT
      = .ok [] ∧
    NoFault envNoInspector.faults ∧
    ∃ (db' : DB) (workflow : Workflow) (steps : List WorkflowStep),
      CreateWorkflow envNoInspector dbOneWorkflow "add index" "" userBob taskNine
        [templateAuthorized, templateExecute] = (none, db') ∧
      db'.workflows = dbOneWorkflow.workflows ++ [workflow] ∧
      db'.workflow_steps = dbOneWorkflow.workflow_steps ++ steps ∧
      steps.length = [templateAuthorized, templateExecute].length ∧
      ∀ (i : Nat) (st : WorkflowStepTemplate) (step : WorkflowStep),
        [templateAuthorized, templateExecute][i]? = some st →
        st.ApprovedByAuthorized.Bool = true →
        steps[i]? = some step →
        step.WorkflowStepTemplateId = st.ID ∧ step.WorkflowId = workflow.ID ∧
        ∀ row ∈ db'.workflow_step_user, row.workflow_step_id ≠ step.ID :=
  ⟨rfl, by decide,
    CreateWorkflow_without_inspector envNoInspector dbOneWorkflow "add index" "" userBob
      taskNine [templateAuthorized, templateExecute] rfl (by decide)⟩

/-! ### Reading the history -/

/-- The inner loop of `GetWorkflowHistoryById` is a `filter`. -/
theorem historySteps_eq_filter (record : WorkflowRecord) (steps : List WorkflowStep) :
    historySteps record steps
      = steps.filter (fun step =>
          decide (step.WorkflowRecordId = record.ID ∧ step.State ≠ WorkflowStepStateInit)) := by
  have hgen : ∀ (init : List WorkflowStep),
      steps.foldl
          (fun recordSteps step =>
            if step.WorkflowRecordId = record.ID ∧ step.State ≠ WorkflowStepStateInit then
              recordSteps ++ [step]
            else recordSteps)
          init
        = init ++ steps.filter (fun step =>
            decide (step.WorkflowRecordId = record.ID ∧ step.State ≠ WorkflowStepStateInit)) := by
    induction steps with
    | nil => intro init; simp
    | cons step rest ih =>
      intro init
      by_cases hc : step.WorkflowRecordId = record.ID ∧ step.State ≠ WorkflowStepStateInit
      · simp only [List.foldl_cons, if_pos hc, ih, List.filter_cons, decide_eq_true hc,
          if_true, List.append_assoc, List.singleton_append]
      · simp only [List.foldl_cons, if_neg hc, ih, List.filter_cons, decide_eq_false hc]
        simp
  simpa [historySteps] using hgen []

/-- C6: every record returned by `GetWorkflowHistoryById` carries, in fetch
order, exactly the steps fetched for the returned records whose
`WorkflowRecordId` is the record's id and whose state is not `initialized`;
hence a step belongs to the record's list if and only if it was fetched, is of
that record, and has left `initialized`. -/
theorem GetWorkflowHistoryById_steps (db : DB) (faults : List Bool) (id : Nat)
    (records : List WorkflowRecord)
    (h : GetWorkflowHistoryById db faults id = .ok records) :
    ∀ record ∈ records,
      record.Steps
        = (db.stepsByRecordIds (records.map fun r => r.ID)).filter (fun step =>
            decide (step.WorkflowRecordId = record.ID ∧ step.State ≠ WorkflowStepStateInit)) ∧
      ∀ step : WorkflowStep,
        step ∈ record.Steps ↔
          step ∈ db.stepsByRecordIds (records.map fun r => r.ID) ∧
          step.WorkflowRecordId = record.ID ∧ step.State ≠ WorkflowStepStateInit := by
  have hfilter : ∀ record ∈ records,
      record.Steps
        = (db.stepsByRecordIds (records.map fun r => r.ID)).filter (fun step =>
            decide (step.WorkflowRecordId = record.ID ∧ step.State ≠ WorkflowStepStateInit)) := by
    unfold GetWorkflowHistoryById at h
    split at h
    · cases h
    · rename_i rest hrest
      simp only at h
      split at h
      · rename_i hlen
        cases h
        intro record hrecord
        rw [List.length_eq_zero.mp hlen] at hrecord
        cases hrecord
      · rw [foldl_append_singleton (fun r : WorkflowRecord => r.ID)] at h
        simp only [List.nil_append] at h
        cases hsteps : getWorkflowStepsByRecordIds db rest
            (List.map (fun r : WorkflowRecord => r.ID) (db.historyRecords id)) with
        | error e =>
          rw [hsteps] at h
          cases h
        | ok steps =>
          rw [hsteps] at h
          simp only [Except.ok.injEq] at h
          have hfetched : steps
              = db.stepsByRecordIds (List.map (fun r => r.ID) (db.historyRecords id)) := by
            unfold getWorkflowStepsByRecordIds at hsteps
            split at hsteps
            · cases hsteps
            · split at hsteps
              · cases hsteps
              · simp only [Except.ok.injEq] at hsteps
                exact hsteps.symm
          subst h
          intro record hrecord
          simp only [List.mem_map] at hrecord
          obtain ⟨r, _, rfl⟩ := hrecord
          simp only [List.map_map, historySteps_eq_filter, hfetched]
          rfl
  intro record hrecord
  refine ⟨hfilter record hrecord, fun step => ?_⟩
  rw [hfilter record hrecord]
  simp [List.mem_filter]

theorem GetWorkflowHistoryById_steps_witness :
    GetWorkflowHistoryById dbWithHistory [] 1 = .ok historyOfWorkflowOne ∧
    historyOfWorkflowOne.map (fun r => (r.ID, r.Steps.map fun step => step.ID))
      = [(1, [1, 2]), (2, [3])] ∧
    ∀ record ∈ historyOfWorkflowOne,
      record.Steps
        = (dbWithHistory.stepsByRecordIds (historyOfWorkflowOne.map fun r => r.ID)).filter
            (fun step =>
              decide (step.WorkflowRecordId = record.ID ∧ step.State ≠ WorkflowStepStateInit)) ∧
      ∀ step : WorkflowStep,
        step ∈ record.Steps ↔
          step ∈ dbWithHistory.stepsByRecordIds (historyOfWorkflowOne.map fun r => r.ID) ∧
          step.WorkflowRecordId = record.ID ∧ step.State ≠ WorkflowStepStateInit :=
  ⟨by rfl, by decide,
    GetWorkflowHistoryById_steps dbWithHistory [] 1 historyOfWorkflowOne (by rfl)⟩

/-! ### `CreateWorkflow`: error exits and the store invariant -/

/-- Every error exit of `CreateWorkflow` leaves the database as it was. -/
theorem CreateWorkflow_error_unchanged (env : Env) (db db' : DB) (subject desc : String)
    (user : User) (task : Task) (stepTemplates : List WorkflowStepTemplate) (err : ErrorCode)
    (h : CreateWorkflow env db subject desc user task stepTemplates = (some err, db')) :
    db' = db := by
  unfold CreateWorkflow at h
  split at h
  · simp only [Prod.mk.injEq] at h; exact h.2.symm
  · simp only at h
    split at h
    · simp only [Prod.mk.injEq] at h; exact h.2.symm
    · split at h
      · simp only [Prod.mk.injEq] at h; exact h.2.symm
      · split at h
        · simp only [Prod.mk.injEq] at h; exact h.2.symm
        · split at h
          · simp only [Prod.mk.injEq] at h; exact h.2.symm
          · split at h
            · simp only [Prod.mk.injEq] at h; exact h.2.symm
            · simp at h

theorem createdDB_WF (now : Nat) (db : DB) (subject desc : String) (user : User) (task : Task)
    (steps : List WorkflowStep) (hwf : db.WF) :
    (createdDB now db subject desc user task steps).WF := by
  have hrecords := createdDB_records now db subject desc user task steps hwf
  obtain ⟨h1, h2, h3, hw, hr, hs⟩ := hwf
  refine ⟨?_, ?_, ?_, ?_, ?_, ?_⟩
  · simp [createdDB]
  · simp [createdDB]
  · simp only [createdDB]; omega
  · intro w hmem
    simp only [createdDB, List.mem_append, List.mem_singleton] at hmem ⊢
    rcases hmem with hold | rfl
    · have := hw w hold; omega
    · simp [createdWorkflow]
  · intro r hmem
    rw [hrecords] at hmem
    simp only [List.mem_append, List.mem_singleton] at hmem
    have hnext : (createdDB now db subject desc user task steps).nextRecordId
        = db.nextRecordId + 1 := rfl
    rw [hnext]
    rcases hmem with hold | rfl
    · have := hr r hold; omega
    · simp [insertedRecord]
  · intro step hmem
    have hnext : (createdDB now db subject desc user task steps).nextStepId
        = db.nextStepId + steps.length := rfl
    have hrows : (createdDB now db subject desc user task steps).workflow_steps
        = db.workflow_steps
            ++ stepRows now db.nextRecordId db.nextWorkflowId db.nextStepId steps := rfl
    rw [hnext]
    rw [hrows, List.mem_append] at hmem
    rcases hmem with hold | hnew
    · have := hs step hold; omega
    · exact (stepRows_mem _ _ _ _ _ step hnew).2.2.2

/-- `CreateWorkflow` keeps the store invariant, whether it commits or rolls
back. -/
theorem CreateWorkflow_preserves_WF (env : Env) (db : DB) (subject desc : String) (user : User)
    (task : Task) (stepTemplates : List WorkflowStepTemplate) (hwf : db.WF) :
    (CreateWorkflow env db subject desc user task stepTemplates).2.WF := by
  cases hres : CreateWorkflow env db subject desc user task stepTemplates with
  | mk err db' =>
    cases err with
    | none =>
      obtain ⟨inspector, _, hdb'⟩ := CreateWorkflow_ok _ _ _ _ _ _ _ _ hres
      simp only [hdb']
      exact createdDB_WF _ _ _ _ _ _ _ hwf
    | some e =>
      have := CreateWorkflow_error_unchanged _ _ _ _ _ _ _ _ _ hres
      simp only [this]
      exact hwf

/-! ### `generateWorkflowStepByTemplate` on a NULL `approved_by_authorized` -/

/-- C16, as stated, fails: a step template whose `approved_by_authorized` is
not valid but whose `Bool` field is true gets the inspector list, not its own
users. -/
theorem generateWorkflowStepByTemplate_null_counterexample :
    templateNullButSet.ApprovedByAuthorized.Valid = false ∧
    (generateWorkflowStepByTemplate [templateNullButSet] [userEve, userFrank]).map
        (fun step => step.Assignees) = [[userEve, userFrank]] ∧
    templateNullButSet.Users ≠ [userEve, userFrank] := by
  decide

/-- C16, amended: for a step template whose `approved_by_authorized` is not
valid and whose `Bool` field is false (the value a scan of NULL leaves), the
generated step has the template's own users as assignees, whatever the inspector
list is. -/
theorem generateWorkflowStepByTemplate_null (stepsTemplate : List WorkflowStepTemplate)
    (allInspector : List User) (i : Nat) (st : WorkflowStepTemplate)
    (hst : stepsTemplate[i]? = some st)
    (hnull : st.ApprovedByAuthorized.Valid = false)
    (hbool : st.ApprovedByAuthorized.Bool = false) :
    ((generateWorkflowStepByTemplate stepsTemplate allInspector)[i]?).map
        (fun step => step.Assignees) = some st.Users := by
  have _ := hnull
  rw [generateWorkflowStepByTemplate_eq_map, List.getElem?_map, hst]
  simp [generateWorkflowStep_assignees, hbool]

theorem generateWorkflowStepByTemplate_null_witness :
    [templateNull][0]? = some templateNull ∧
    templateNull.ApprovedByAuthorized.Valid = false ∧
    templateNull.ApprovedByAuthorized.Bool = false ∧
    ((generateWorkflowStepByTemplate [templateNull] [userEve, userFrank])[0]?).map
        (fun step => step.Assignees) = some templateNull.Users :=
  ⟨rfl, rfl, rfl,
    generateWorkflowStepByTemplate_null [templateNull] [userEve, userFrank] 0 templateNull
      rfl rfl rfl⟩

/-! ### `NextStep` without a matching step, and `FinalStep` -/

theorem nextIndexLoop_no_match (cur : Nat) (steps : List WorkflowStep) (k : Nat)
    (h : ∀ s ∈ steps, s.ID ≠ cur) : nextIndexLoop cur steps k = 0 := by
  induction steps generalizing k with
  | nil => rfl
  | cons s rest ih =>
    have hs : s.ID ≠ cur := h s (List.mem_cons_self _ _)
    simp only [nextIndexLoop, if_neg hs]
    exact ih (k + 1) (fun s' hs' => h s' (List.mem_cons_of_mem _ hs'))

/-- C17: when no step of the record has the current step id, `NextStep` is the
first step of the record if there is one, and nil exactly when the step list is
empty. -/
theorem NextStep_of_unmatched (w : Workflow)
    (h : ∀ s ∈ w.Record.Steps, s.ID ≠ w.Record.CurrentWorkflowStepId) :
    (∀ first rest, w.Record.Steps = first :: rest → w.NextStep = some first) ∧
    (w.NextStep = none ↔ w.Record.Steps = []) := by
  have hidx := nextIndexLoop_no_match _ _ 0 h
  have hnext : w.NextStep = w.Record.Steps[0]? := by
    unfold Workflow.NextStep
    simp only [hidx]
    split
    · rfl
    · rename_i hgt
      symm
      apply List.getElem?_eq_none
      simp only [Nat.cast_zero] at hgt
      omega
  refine ⟨fun first rest hsteps => ?_, ?_⟩
  · rw [hnext, hsteps]; simp
  · rw [hnext]
    cases hsteps : w.Record.Steps with
    | nil => simp
    | cons first rest => simp

theorem NextStep_of_unmatched_witness :
    (∀ s ∈ workflowUnsetCurrentStep.Record.Steps,
      s.ID ≠ workflowUnsetCurrentStep.Record.CurrentWorkflowStepId) ∧
    workflowUnsetCurrentStep.NextStep = some stepOne ∧
    (∀ first rest, workflowUnsetCurrentStep.Record.Steps = first :: rest →
      workflowUnsetCurrentStep.NextStep = some first) ∧
    (workflowUnsetCurrentStep.NextStep = none ↔ workflowUnsetCurrentStep.Record.Steps = []) :=
  ⟨by decide, by decide, NextStep_of_unmatched workflowUnsetCurrentStep (by decide)⟩

/-- C18: for a record with at least one step `FinalStep` returns the last step
of the list; for a record without steps the index is out of range and there is
no result; so `FinalStep` has a result exactly when the record has a step. -/
theorem FinalStep_spec (w : Workflow) :
    (∀ hne : w.Record.Steps ≠ [], w.FinalStep = some (w.Record.Steps.getLast hne)) ∧
    (w.Record.Steps = [] → w.FinalStep = none) ∧
    (w.FinalStep.isSome = true ↔ w.Record.Steps ≠ []) := by
  have hempty : w.Record.Steps = [] → w.FinalStep = none := by
    intro hnil
    simp [Workflow.FinalStep, hnil]
  have hlast : ∀ hne : w.Record.Steps ≠ [],
      w.FinalStep = some (w.Record.Steps.getLast hne) := by
    intro hne
    have hpos : 0 < w.Record.Steps.length := List.length_pos.mpr hne
    have hcond : (0 : Int) ≤ (w.Record.Steps.length : Int) - 1 ∧
        (w.Record.Steps.length : Int) - 1 < (w.Record.Steps.length : Int) := by
      constructor <;> omega
    have hidx : ((w.Record.Steps.length : Int) - 1).toNat = w.Record.Steps.length - 1 := by
      omega
    unfold Workflow.FinalStep
    simp only [hcond, and_self, if_true, hidx]
    rw [List.getLast_eq_getElem]
    exact List.getElem?_eq_getElem (by omega)
  refine ⟨hlast, hempty, ?_⟩
  constructor
  · intro hsome hnil
    rw [hempty hnil] at hsome
    cases hsome
  · intro hne
    rw [hlast hne]
    rfl

/-! ### `GetWorkflowDetailById` -/

theorem attachCurrentStep_fields (steps : List WorkflowStep) :
    ∀ record : WorkflowRecord,
      (attachCurrentStep record steps).CurrentWorkflowStepId = record.CurrentWorkflowStepId ∧
      (attachCurrentStep record steps).Steps = record.Steps := by
  induction steps with
  | nil => intro record; exact ⟨rfl, rfl⟩
  | cons step rest ih =>
    intro record
    simp only [attachCurrentStep, List.foldl_cons]
    split
    · exact ih { record with CurrentStep := some step }
    · exact ih record

theorem attachCurrentStep_currentStep (steps : List WorkflowStep) :
    ∀ record : WorkflowRecord,
      ((∃ s ∈ steps, s.ID = record.CurrentWorkflowStepId) →
        ∃ cs ∈ steps, cs.ID = record.CurrentWorkflowStepId ∧
          (attachCurrentStep record steps).CurrentStep = some cs) ∧
      ((∀ s ∈ steps, s.ID ≠ record.CurrentWorkflowStepId) →
        (attachCurrentStep record steps).CurrentStep = record.CurrentStep) := by
  induction steps with
  | nil =>
    intro record
    exact ⟨fun ⟨s, hs, _⟩ => absurd hs (List.not_mem_nil s), fun _ => rfl⟩
  | cons step rest ih =>
    intro record
    by_cases hrest : ∃ s ∈ rest, s.ID = record.CurrentWorkflowStepId
    · refine ⟨fun _ => ?_, fun hno => ?_⟩
      · by_cases hstep : step.ID = record.CurrentWorkflowStepId
        · simp only [attachCurrentStep, List.foldl_cons, if_pos hstep]
          obtain ⟨cs, hcs, hid, hcur⟩ := (ih { record with CurrentStep := some step }).1 hrest
          exact ⟨cs, List.mem_cons_of_mem _ hcs, hid, hcur⟩
        · simp only [attachCurrentStep, List.foldl_cons, if_neg hstep]
          obtain ⟨cs, hcs, hid, hcur⟩ := (ih record).1 hrest
          exact ⟨cs, List.mem_cons_of_mem _ hcs, hid, hcur⟩
      · obtain ⟨s, hs, hid⟩ := hrest
        exact absurd hid (hno s (List.mem_cons_of_mem _ hs))
    · have hnone : ∀ s ∈ rest, s.ID ≠ record.CurrentWorkflowStepId :=
        fun s hs hid => hrest ⟨s, hs, hid⟩
      refine ⟨fun hex => ?_, fun hno => ?_⟩
      · obtain ⟨s, hs, hid⟩ := hex
        rcases List.mem_cons.mp hs with rfl | hs'
        · simp only [attachCurrentStep, List.foldl_cons, if_pos hid]
          refine ⟨s, List.mem_cons_self _ _, hid, ?_⟩
          exact (ih { record with CurrentStep := some s }).2 hnone
        · exact absurd hid (hnone s hs')
      · have hstep : step.ID ≠ record.CurrentWorkflowStepId :=
          hno step (List.mem_cons_self _ _)
        simp only [attachCurrentStep, List.foldl_cons, if_neg hstep]
        exact (ih record).2 hnone

/-- A successful `GetWorkflowDetailById` returns the workflow row with the
record row it names, the steps fetched for that record, and the current step the
loop attaches. -/
theorem GetWorkflowDetailById_ok (db : DB) (faults : List Bool) (id : Nat) (w : Workflow)
    (exist : Bool) (h : GetWorkflowDetailById db faults id = (some w, exist, none)) :
    ∃ (recordRow : WorkflowRecord) (steps : List WorkflowStep),
      w.Record = attachCurrentStep
        { recordRow with CurrentStep := none, Steps := steps } steps := by
  unfold GetWorkflowDetailById at h
  split at h
  · simp at h
  · split at h
    · simp at h
    · split at h
      · simp at h
      · rename_i recordRow _
        simp only at h
        split at h
        · simp at h
        · rename_i steps _
          simp only [Prod.mk.injEq, Option.some.injEq] at h
          obtain ⟨hw, _⟩ := h
          subst hw
          exact ⟨recordRow, steps, rfl⟩

/-- C14: when the lookup statement does not fail, `GetWorkflowDetailById`
returns no workflow, `false` and a `DataConflict` error if the workflow row
exists but no record row has the id it names, and returns no workflow, `false`
and no error if no workflow row has the given id. -/
theorem GetWorkflowDetailById_missing (db : DB) (faults : List Bool) (id : Nat)
    (hquery : nextStatement faults ≠ none) :
    (∀ row : Workflow,
      db.workflows.find? (fun row => decide (row.ID = id)) = some row →
      (∀ r ∈ db.workflow_records, r.ID ≠ row.WorkflowRecordId) →
      GetWorkflowDetailById db faults id = (none, false, some ErrorCode.DataConflict)) ∧
    ((∀ row ∈ db.workflows, row.ID ≠ id) →
      GetWorkflowDetailById db faults id = (none, false, none)) := by
  cases hn : nextStatement faults with
  | none => exact absurd hn hquery
  | some rest =>
    refine ⟨fun row hrow hnorec => ?_, fun hnorow => ?_⟩
    · have hfind : db.workflow_records.find? (fun r => decide (r.ID = row.WorkflowRecordId))
          = none := by
        rw [List.find?_eq_none]
        intro r hr
        simpa using hnorec r hr
      simp [GetWorkflowDetailById, hn, hrow, hfind]
    · have hfind : db.workflows.find? (fun row => decide (row.ID = id)) = none := by
        rw [List.find?_eq_none]
        intro row hrow
        simpa using hnorow row hrow
      simp [GetWorkflowDetailById, hn, hfind]

theorem GetWorkflowDetailById_missing_witness :
    nextStatement [] ≠ none ∧
    GetWorkflowDetailById dbDangling [] 1 = (none, false, some ErrorCode.DataConflict) ∧
    GetWorkflowDetailById dbDangling [] 5 = (none, false, none) :=
  ⟨by decide,
    (GetWorkflowDetailById_missing dbDangling [] 1 (by decide)).1
      { ID := 1, CreatedAt := 10, Subject := "orphan", CreateUserId := 2, WorkflowRecordId := 9 }
      (by rfl) (by decide),
    (GetWorkflowDetailById_missing dbDangling [] 5 (by decide)).2 (by decide)⟩

/-- C19: in a workflow returned by `GetWorkflowDetailById`, the record's
`CurrentStep` is non-nil exactly when some loaded step has the record's current
step id; when it is non-nil it is one of the loaded steps, it has that id, and
`CurrentAssigneeUser` returns its assignees; when no loaded step has that id,
`CurrentAssigneeUser` returns the empty list. -/
theorem GetWorkflowDetailById_current_step (db : DB) (faults : List Bool) (id : Nat)
    (w : Workflow) (h : GetWorkflowDetailById db faults id = (some w, true, none)) :
    (w.Record.CurrentStep ≠ none ↔
      ∃ s ∈ w.Record.Steps, s.ID = w.Record.CurrentWorkflowStepId) ∧
    (∀ cs : WorkflowStep, w.Record.CurrentStep = some cs →
      cs ∈ w.Record.Steps ∧ cs.ID = w.Record.CurrentWorkflowStepId ∧
      w.CurrentAssigneeUser = cs.Assignees) ∧
    ((∀ s ∈ w.Record.Steps, s.ID ≠ w.Record.CurrentWorkflowStepId) →
      w.CurrentAssigneeUser = []) := by
  obtain ⟨recordRow, steps, hrec⟩ := GetWorkflowDetailById_ok db faults id w true h
  have hfields := attachCurrentStep_fields steps
    { recordRow with CurrentStep := none, Steps := steps }
  have hcur := attachCurrentStep_currentStep steps
    { recordRow with CurrentStep := none, Steps := steps }
  rw [← hrec] at hfields hcur
  obtain ⟨hid, hsteps⟩ := hfields
  simp only at hid hsteps hcur
  rw [hsteps, hid]
  obtain ⟨hsome, hnone⟩ := hcur
  by_cases hex : ∃ s ∈ steps, s.ID = recordRow.CurrentWorkflowStepId
  · obtain ⟨cs, hcs, hcsid, hcseq⟩ := hsome hex
    refine ⟨?_, ?_, ?_⟩
    · constructor
      · intro _; exact hex
      · intro _; rw [hcseq]; simp
    · intro cs' hcs'
      rw [hcseq] at hcs'
      cases hcs'
      refine ⟨hcs, hcsid, ?_⟩
      simp [Workflow.CurrentAssigneeUser, Workflow.CurrentStep, hcseq]
    · intro hno
      obtain ⟨s, hs, hsid⟩ := hex
      exact absurd hsid (hno s hs)
  · have hno : ∀ s ∈ steps, s.ID ≠ recordRow.CurrentWorkflowStepId :=
      fun s hs hsid => hex ⟨s, hs, hsid⟩
    have hcseq := hnone hno
    refine ⟨?_, ?_, ?_⟩
    · constructor
      · intro hne; exact absurd hcseq hne
      · intro hex'; exact absurd hex' hex
    · intro cs' hcs'
      rw [hcseq] at hcs'
      cases hcs'
    · intro _
      simp [Workflow.CurrentAssigneeUser, Workflow.CurrentStep, hcseq]

theorem GetWorkflowDetailById_current_step_witness :
    GetWorkflowDetailById dbWithHistory [] 1 = (some workflowOneLoaded, true, none) ∧
    (workflowOneLoaded.Record.CurrentStep.map fun step => step.ID) = some 5 ∧
    workflowOneLoaded.CurrentAssigneeUser = [userAlice] ∧
    (workflowOneLoaded.Record.CurrentStep ≠ none ↔
      ∃ s ∈ workflowOneLoaded.Record.Steps,
        s.ID = workflowOneLoaded.Record.CurrentWorkflowStepId) ∧
    (∀ cs : WorkflowStep, workflowOneLoaded.Record.CurrentStep = some cs →
      cs ∈ workflowOneLoaded.Record.Steps ∧
      cs.ID = workflowOneLoaded.Record.CurrentWorkflowStepId ∧
      workflowOneLoaded.CurrentAssigneeUser = cs.Assignees) ∧
    ((∀ s ∈ workflowOneLoaded.Record.Steps,
        s.ID ≠ workflowOneLoaded.Record.CurrentWorkflowStepId) →
      workflowOneLoaded.CurrentAssigneeUser = []) :=
  ⟨by rfl, by decide, by decide,
    GetWorkflowDetailById_current_step dbWithHistory [] 1 workflowOneLoaded (by rfl)⟩

/-! ### `UpdateWorkflowRecord` -/

/-- When `cloneWorkflowStep` returns, every step had its template loaded. -/
theorem cloneLoop_some_templates (workflowID : Nat) (steps : List WorkflowStep) :
    ∀ (init out : List WorkflowStep),
      steps.foldlM (cloneWorkflowStepBody workflowID) init = some out →
      ∀ step ∈ steps, step.Template ≠ none := by
  induction steps with
  | nil => intro init out _ step hstep; cases hstep
  | cons s rest ih =>
    intro init out h step hstep
    simp only [List.foldlM] at h
    cases ht : s.Template with
    | none => simp [cloneWorkflowStepBody, ht] at h
    | some t =>
      simp only [cloneWorkflowStepBody, ht] at h
      rcases List.mem_cons.mp hstep with rfl | hrest
      · simp [ht]
      · exact ih _ out h step hrest

theorem cloneWorkflowStep_some (w : Workflow) (clones : List WorkflowStep)
    (h : w.cloneWorkflowStep = some clones) :
    clones.length = w.Record.Steps.length ∧ ∀ c ∈ clones, c.WorkflowId = w.ID := by
  have htemplates := cloneLoop_some_templates w.ID w.Record.Steps [] clones h
  have hmap := cloneLoop_eq_map w.ID w.Record.Steps [] htemplates
  unfold Workflow.cloneWorkflowStep at h
  rw [hmap] at h
  simp only [List.nil_append, Option.some.injEq] at h
  subst h
  refine ⟨by simp, ?_⟩
  intro c hc
  simp only [List.mem_map] at hc
  obtain ⟨s, _, rfl⟩ := hc
  rfl

/-- On steps that already carry the workflow id, the loop of
`UpdateWorkflowRecord` does what the loop of `CreateWorkflow` does. -/
theorem updateWorkflowRecordSteps_eq (now recordID workflowID : Nat)
    (steps : List WorkflowStep) :
    ∀ tx : Tx, (∀ s ∈ steps, s.WorkflowId = workflowID) →
      updateWorkflowRecordSteps now recordID tx steps
        = createWorkflowSteps now recordID workflowID tx steps := by
  induction steps with
  | nil => intro tx _; rfl
  | cons step rest ih =>
    intro tx h
    have hstep : step.WorkflowId = workflowID := h step (List.mem_cons_self _ _)
    have hrest : ∀ s ∈ rest, s.WorkflowId = workflowID :=
      fun s hs => h s (List.mem_cons_of_mem _ hs)
    subst hstep
    have hih : ∀ tx : Tx, updateWorkflowRecordSteps now recordID tx rest
        = createWorkflowSteps now recordID step.WorkflowId tx rest :=
      fun tx => ih tx hrest
    simp only [updateWorkflowRecordSteps, createWorkflowSteps, hih]

theorem Tx.updateCurrentStep_db (tx tx' : Tx) (recordID stepID : Nat)
    (h : tx.updateCurrentStep recordID stepID = some tx') :
    tx'.db = { tx.db with workflow_records := tx.db.workflow_records.map fun r =>
      if r.ID = recordID then { r with CurrentWorkflowStepId := stepID } else r } :=
  Tx.exec_db _ _ _ h

/-- A call of `UpdateWorkflowRecord` that returns no error has cloned the steps
and committed exactly the closed form `resubmittedDB`. -/
theorem UpdateWorkflowRecord_ok (env : Env) (db db' : DB) (w : Workflow) (task : Task)
    (h : UpdateWorkflowRecord env db w task = some (none, db')) :
    ∃ clones, w.cloneWorkflowStep = some clones ∧
      db' = resubmittedDB env.now db w task clones := by
  unfold UpdateWorkflowRecord at h
  split at h
  · cases h
  · rename_i clones hclone
    refine ⟨clones, hclone, ?_⟩
    have hwid := (cloneWorkflowStep_some w clones hclone).2
    simp only at h
    split at h
    · simp at h
    · rename_i tx1 record1 h1
      obtain ⟨hrec, hdb1⟩ := Tx.saveRecord_ok _ _ _ _ _ h1
      rw [updateWorkflowRecordSteps_eq _ _ w.ID _ _ hwid] at h
      split at h
      · simp at h
      · rename_i tx2 steps2 h2
        obtain ⟨hsteps, hdb2⟩ := createWorkflowSteps_ok _ _ _ _ _ _ _ h2
        split at h
        · simp at h
        · rename_i tx3 h3
          split at h
          · simp at h
          · rename_i tx4 h4
            split at h
            · simp at h
            · rename_i tx5 h5
              split at h
              · simp at h
              · rename_i committed h6
                simp only [Option.some.injEq, Prod.mk.injEq, true_and] at h
                subst h
                have hc := Tx.commit_ok _ _ h6
                have hdb5 := Tx.exec_db _ _ _ h5
                have hdb4 := Tx.exec_db _ _ _ h4
                subst hsteps hrec
                simp only at hdb1 hdb2 h3 hdb4 hdb5
                cases hg : clones with
                | nil =>
                  rw [hg] at h3 hdb2
                  simp only [stepRows, Option.some.injEq] at h3
                  subst h3
                  rw [hc, hdb5, hdb4, hdb2, hdb1]
                  simp [resubmittedDB, insertedRecord, stepRows, assigneeRows]
                | cons g rest =>
                  rw [hg] at h3 hdb2
                  simp only [stepRows] at h3
                  have hdb3 := Tx.updateCurrentStep_db _ _ _ _ h3
                  rw [hc, hdb5, hdb4, hdb3, hdb2, hdb1]
                  simp [resubmittedDB, insertedRecord, stepRows, assigneeRows, stepRow]

/-- A call of `UpdateWorkflowRecord` on a workflow whose steps have their
templates loaded, none of whose statements fails, returns no error. -/
theorem UpdateWorkflowRecord_noFault (env : Env) (db : DB) (w : Workflow) (task : Task)
    (htemplates : ∀ step ∈ w.Record.Steps, step.Template ≠ none)
    (hno : NoFault env.faults) :
    ∃ clones, w.cloneWorkflowStep = some clones ∧
      UpdateWorkflowRecord env db w task
        = some (none, resubmittedDB env.now db w task clones) := by
  have hclone := cloneLoop_eq_map w.ID w.Record.Steps [] htemplates
  have hclone' : w.cloneWorkflowStep = some ([] ++ w.Record.Steps.map (fun step =>
      ({ WorkflowStepTemplateId := (step.Template.map (fun t => t.ID)).getD 0,
         WorkflowId := w.ID,
         Assignees := step.Assignees } : WorkflowStep))) := hclone
  have hwid := (cloneWorkflowStep_some w _ hclone').2
  have hsome : ∃ db', UpdateWorkflowRecord env db w task = some (none, db') := by
    unfold UpdateWorkflowRecord
    simp only [hclone', Tx.saveRecord]
    obtain ⟨tx1, h1, hno1⟩ := Tx.exec_noFault { db := db, faults := env.faults } _ hno
    rw [h1]
    simp only [Option.map_some']
    rw [updateWorkflowRecordSteps_eq _ _ w.ID _ _ hwid]
    obtain ⟨tx2, saved, h2, hno2⟩ := createWorkflowSteps_noFault _ _ _ _ tx1 hno1
    rw [h2]
    simp only
    cases saved with
    | nil =>
      simp only [Tx.insertRecordHistory, Tx.updateWorkflowRecordId]
      obtain ⟨tx4, h4, hno4⟩ := Tx.exec_noFault tx2 _ hno2
      rw [h4]
      simp only
      obtain ⟨tx5, h5, hno5⟩ := Tx.exec_noFault tx4 _ hno4
      rw [h5]
      simp only [Tx.commit_noFault tx5 hno5]
      exact ⟨_, rfl⟩
    | cons first rest =>
      simp only [Tx.updateCurrentStep, Tx.insertRecordHistory, Tx.updateWorkflowRecordId]
      obtain ⟨tx3, h3, hno3⟩ := Tx.exec_noFault tx2 _ hno2
      rw [h3]
      simp only
      obtain ⟨tx4, h4, hno4⟩ := Tx.exec_noFault tx3 _ hno3
      rw [h4]
      simp only
      obtain ⟨tx5, h5, hno5⟩ := Tx.exec_noFault tx4 _ hno4
      rw [h5]
      simp only [Tx.commit_noFault tx5 hno5]
      exact ⟨_, rfl⟩
  obtain ⟨db', hdb'⟩ := hsome
  obtain ⟨clones, hc, hcreated⟩ := UpdateWorkflowRecord_ok _ _ _ _ _ hdb'
  exact ⟨clones, hc, by rw [hdb', hcreated]⟩

/-- Every error exit of `UpdateWorkflowRecord` leaves the database as it was. -/
theorem UpdateWorkflowRecord_error_unchanged (env : Env) (db db' : DB) (w : Workflow)
    (task : Task) (err : ErrorCode)
    (h : UpdateWorkflowRecord env db w task = some (some err, db')) : db' = db := by
  unfold UpdateWorkflowRecord at h
  split at h
  · cases h
  · simp only at h
    split at h
    · simp only [Option.some.injEq, Prod.mk.injEq] at h; exact h.2.symm
    · split at h
      · simp only [Option.some.injEq, Prod.mk.injEq] at h; exact h.2.symm
      · split at h
        · simp only [Option.some.injEq, Prod.mk.injEq] at h; exact h.2.symm
        · split at h
          · simp only [Option.some.injEq, Prod.mk.injEq] at h; exact h.2.symm
          · split at h
            · simp only [Option.some.injEq, Prod.mk.injEq] at h; exact h.2.symm
            · split at h
              · simp only [Option.some.injEq, Prod.mk.injEq] at h; exact h.2.symm
              · simp at h

/-- In a well-formed database the `UPDATE` of the current step id reaches the
record row `UpdateWorkflowRecord` has just inserted and no other. -/
theorem resubmittedDB_records (now : Nat) (db : DB) (w : Workflow) (task : Task)
    (clones : List WorkflowStep) (hwf : db.WF) :
    (resubmittedDB now db w task clones).workflow_records
      = db.workflow_records ++
          [{ insertedRecord now db task with
             CurrentWorkflowStepId := if clones = [] then 0 else db.nextStepId }] := by
  cases clones with
  | nil => simp [resubmittedDB, insertedRecord]
  | cons step rest =>
    have hold : ∀ r ∈ db.workflow_records, r.ID ≠ db.nextRecordId :=
      fun r hr => Nat.ne_of_lt (hwf.2.2.2.2.1 r hr)
    have hmap : db.workflow_records.map (fun r =>
        if r.ID = db.nextRecordId then { r with CurrentWorkflowStepId := db.nextStepId } else r)
        = db.workflow_records := by
      conv_rhs => rw [← List.map_id db.workflow_records]
      apply List.map_congr_left
      intro r hr
      simp [hold r hr]
    simp [resubmittedDB, insertedRecord, hmap]

/-- C11, as stated, fails: a workflow whose current record is `on_process`, not
`rejected`, is re-submitted without error; its record 3 goes into the history
and the workflow row points at the new record 4. -/
theorem UpdateWorkflowRecord_status_counterexample :
    workflowOneLoaded.Record.Status = WorkflowStatusRunning ∧
    workflowOneLoaded.Record.Status ≠ WorkflowStatusReject ∧
    UpdateWorkflowRecord envInspectors dbWithHistory workflowOneLoaded taskNine
      = some (none, dbResubmitted) ∧
    dbResubmitted.workflow_record_history = [⟨1, 1⟩, ⟨1, 2⟩, ⟨1, 3⟩] ∧
    dbResubmitted.workflows.map (fun row => (row.ID, row.WorkflowRecordId)) = [(1, 4)] ∧
    dbResubmitted ≠ dbWithHistory := by
  refine ⟨by decide, by decide, by rfl, by decide, by decide, by decide⟩

/-- C11, amended: `UpdateWorkflowRecord` does not read the status of the current
record.  For a workflow whose steps have their templates loaded, the call is
the same whatever that status is; when no storage statement fails it returns no
error and appends the current record to the history; and when it does return an
error the database is left as it was. -/
theorem UpdateWorkflowRecord_any_status (env : Env) (db : DB) (w : Workflow) (task : Task)
    (htemplates : ∀ step ∈ w.Record.Steps, step.Template ≠ none) :
    (∀ status : String,
      UpdateWorkflowRecord env db { w with Record := { w.Record with Status := status } } task
        = UpdateWorkflowRecord env db w task) ∧
    (NoFault env.faults →
      ∃ db', UpdateWorkflowRecord env db w task = some (none, db') ∧
        db'.workflow_record_history
          = db.workflow_record_history ++ [WorkflowRecordHistory.mk w.ID w.Record.ID]) ∧
    (∀ (err : ErrorCode) (db' : DB),
      UpdateWorkflowRecord env db w task = some (some err, db') → db' = db) := by
  refine ⟨fun status => rfl, fun hno => ?_, fun err db' h => ?_⟩
  · obtain ⟨clones, _, hrun⟩ := UpdateWorkflowRecord_noFault env db w task htemplates hno
    exact ⟨_, hrun, rfl⟩
  · exact UpdateWorkflowRecord_error_unchanged env db db' w task err h

theorem UpdateWorkflowRecord_any_status_witness :
    (∀ step ∈ workflowOneLoaded.Record.Steps, step.Template ≠ none) ∧
    NoFault envInspectors.faults ∧
    (∀ status : String,
      UpdateWorkflowRecord envInspectors dbWithHistory
          { workflowOneLoaded with Record := { workflowOneLoaded.Record with Status := status } }
          taskNine
        = UpdateWorkflowRecord envInspectors dbWithHistory workflowOneLoaded taskNine) ∧
    (NoFault envInspectors.faults →
      ∃ db', UpdateWorkflowRecord envInspectors dbWithHistory workflowOneLoaded taskNine
          = some (none, db') ∧
        db'.workflow_record_history
          = dbWithHistory.workflow_record_history
            ++ [WorkflowRecordHistory.mk workflowOneLoaded.ID workflowOneLoaded.Record.ID]) ∧
    (∀ (err : ErrorCode) (db' : DB),
      UpdateWorkflowRecord envInspectors dbWithHistory workflowOneLoaded taskNine
        = some (some err, db') → db' = dbWithHistory) :=
  ⟨by decide, by decide,
    UpdateWorkflowRecord_any_status envInspectors dbWithHistory workflowOneLoaded taskNine
      (by decide)⟩

/-- C12: when `UpdateWorkflowRecord` returns no error for a workflow whose
record has at least one step (the database being well-formed), the history has
gained exactly one entry, that of the record the workflow came with, after the
entries it had; the old record rows, step rows and the assignee rows of old
steps are as before; one record row with a new id, for the given task, has been
added together with one step row per step of the old record, all carrying the
new record's id and the workflow's id; the workflow row points at the new
record; and the new record's current step id is the id of its first step. -/
theorem UpdateWorkflowRecord_success (env : Env) (db db' : DB) (w : Workflow) (task : Task)
    (hwf : db.WF) (hsteps : w.Record.Steps ≠ [])
    (hok : UpdateWorkflowRecord env db w task = some (none, db')) :
    ∃ (record : WorkflowRecord) (steps : List WorkflowStep),
      db'.workflow_record_history
        = db.workflow_record_history ++ [WorkflowRecordHistory.mk w.ID w.Record.ID] ∧
      db'.workflow_records = db.workflow_records ++ [record] ∧
      (∀ old ∈ db.workflow_records, old.ID ≠ record.ID) ∧
      record.TaskId = task.ID ∧
      db'.workflow_steps = db.workflow_steps ++ steps ∧
      steps.length = w.Record.Steps.length ∧
      (∀ step ∈ steps,
        step.WorkflowRecordId = record.ID ∧ step.WorkflowId = w.ID ∧
        ∀ old ∈ db.workflow_steps, old.ID ≠ step.ID) ∧
      (∀ row : WorkflowStepUser, row.workflow_step_id < db.nextStepId →
        (row ∈ db'.workflow_step_user ↔ row ∈ db.workflow_step_user)) ∧
      db'.workflows = db.workflows.map (fun row =>
        if row.ID = w.ID then { row with WorkflowRecordId := record.ID } else row) ∧
      (steps.head?).map (fun step => step.ID) = some record.CurrentWorkflowStepId := by
  obtain ⟨clones, hclone, hdb'⟩ := UpdateWorkflowRecord_ok _ _ _ _ _ hok
  have hlen := (cloneWorkflowStep_some w clones hclone).1
  have hne : clones ≠ [] := by
    intro hnil
    rw [hnil] at hlen
    exact hsteps (List.length_eq_zero.mp hlen.symm)
  have hwf0 := hwf
  obtain ⟨_, _, _, _, hrecords, hstepids⟩ := hwf
  refine ⟨{ insertedRecord env.now db task with CurrentWorkflowStepId := db.nextStepId },
    stepRows env.now db.nextRecordId w.ID db.nextStepId clones,
    ?_, ?_, ?_, rfl, ?_, ?_, ?_, ?_, ?_, ?_⟩
  · rw [hdb']; rfl
  · rw [hdb', resubmittedDB_records _ _ _ _ _ hwf0]
    simp [hne]
  · intro old hold
    exact Nat.ne_of_lt (hrecords old hold)
  · rw [hdb']; rfl
  · rw [stepRows_length, hlen]
  · intro step hstep
    obtain ⟨h1, h2, h3, _⟩ := stepRows_mem _ _ _ _ _ step hstep
    refine ⟨h1, h2, fun old hold => ?_⟩
    have := hstepids old hold
    omega
  · intro row hrow
    rw [hdb']
    exact assigneeRows_below clones db.workflow_step_user db.nextStepId row hrow
  · rw [hdb']; rfl
  · cases hg : clones with
    | nil => exact absurd hg hne
    | cons g rest => simp [stepRows, stepRow]

theorem UpdateWorkflowRecord_success_witness :
    dbWithHistory.WF ∧ workflowOneLoaded.Record.Steps ≠ [] ∧
    UpdateWorkflowRecord envInspectors dbWithHistory workflowOneLoaded taskNine
      = some (none, dbResubmitted) ∧
    ∃ (record : WorkflowRecord) (steps : List WorkflowStep),
      dbResubmitted.workflow_record_history
        = dbWithHistory.workflow_record_history
          ++ [WorkflowRecordHistory.mk workflowOneLoaded.ID workflowOneLoaded.Record.ID] ∧
      dbResubmitted.workflow_records = dbWithHistory.workflow_records ++ [record] ∧
      (∀ old ∈ dbWithHistory.workflow_records, old.ID ≠ record.ID) ∧
      record.TaskId = taskNine.ID ∧
      dbResubmitted.workflow_steps = dbWithHistory.workflow_steps ++ steps ∧
      steps.length = workflowOneLoaded.Record.Steps.length ∧
      (∀ step ∈ steps,
        step.WorkflowRecordId = record.ID ∧ step.WorkflowId = workflowOneLoaded.ID ∧
        ∀ old ∈ dbWithHistory.workflow_steps, old.ID ≠ step.ID) ∧
      (∀ row : WorkflowStepUser, row.workflow_step_id < dbWithHistory.nextStepId →
        (row ∈ dbResubmitted.workflow_step_user ↔ row ∈ dbWithHistory.workflow_step_user)) ∧
      dbResubmitted.workflows = dbWithHistory.workflows.map (fun row =>
        if row.ID = workflowOneLoaded.ID then { row with WorkflowRecordId := record.ID }
        else row) ∧
      (steps.head?).map (fun step => step.ID) = some record.CurrentWorkflowStepId :=
  ⟨by decide, by decide, by rfl,
    UpdateWorkflowRecord_success envInspectors dbWithHistory dbResubmitted workflowOneLoaded
      taskNine (by decide) (by decide) (by rfl)⟩

/-! ### `DeleteWorkflow` -/

/-- C13, the code at the failing input: deleting workflow 1 of `dbWithHistory`
succeeds and removes the workflow row, its current record 3, all its steps and
its history entries, but the record rows 1 and 2 that its history named are
still in `workflow_records`. -/
theorem DeleteWorkflow_keeps_history_records :
    dbWithHistory.recordIdsOf workflowOneExpired.ID = [3, 1, 2] ∧
    (DeleteWorkflow dbWithHistory [] workflowOneExpired).1 = none ∧
    (DeleteWorkflow dbWithHistory [] workflowOneExpired).2.workflows = [] ∧
    (DeleteWorkflow dbWithHistory [] workflowOneExpired).2.workflow_steps = [] ∧
    (DeleteWorkflow dbWithHistory [] workflowOneExpired).2.workflow_record_history = [] ∧
    (DeleteWorkflow dbWithHistory [] workflowOneExpired).2.workflow_records.map
      (fun r => r.ID) = [1, 2] := by
  decide

/-- A `TxExec` that returns no error has run `fn` to the end and committed
its database. -/
theorem TxExec_ok (db db' : DB) (faults : List Bool) (fn : Tx → Option Tx)
    (h : TxExec db faults fn = (none, db')) :
    ∃ tx, fn { db := db, faults := faults } = some tx ∧ db' = tx.db := by
  unfold TxExec at h
  split at h
  · simp at h
  · rename_i tx htx
    split at h
    · simp at h
    · rename_i committed hc
      simp only [Prod.mk.injEq, true_and] at h
      subst h
      exact ⟨tx, htx, Tx.commit_ok _ _ hc⟩

/-- What a successful `DeleteWorkflow` removes: the workflow row, the record row
the workflow value names, the steps carrying the workflow id and the history
entries of the workflow; nothing else. -/
theorem DeleteWorkflow_ok (db db' : DB) (faults : List Bool) (workflow : Workflow)
    (h : DeleteWorkflow db faults workflow = (none, db')) :
    db' = { db with
      workflows := db.workflows.filter fun row => decide (row.ID ≠ workflow.ID)
      workflow_records :=
        db.workflow_records.filter fun r => decide (r.ID ≠ workflow.WorkflowRecordId)
      workflow_steps :=
        db.workflow_steps.filter fun step => decide (step.WorkflowId ≠ workflow.ID)
      workflow_record_history :=
        db.workflow_record_history.filter fun wrh => decide (wrh.workflow_id ≠ workflow.ID) } := by
  obtain ⟨tx, htx, hdb'⟩ := TxExec_ok _ _ _ _ h
  unfold deleteWorkflowStatements at htx
  split at htx
  · cases htx
  · rename_i tx1 h1
    split at htx
    · cases htx
    · rename_i tx2 h2
      split at htx
      · cases htx
      · rename_i tx3 h3
        have hdb4 := Tx.exec_db _ _ _ htx
        have hdb3 := Tx.exec_db _ _ _ h3
        have hdb2 := Tx.exec_db _ _ _ h2
        have hdb1 := Tx.exec_db _ _ _ h1
        rw [hdb', hdb4, hdb3, hdb2, hdb1]

/-! ### `UpdateWorkflowTemplateSteps` -/

theorem insertStepTemplateUsers_ok (stepId : Nat) (users : List User) :
    ∀ tx tx' : Tx, insertStepTemplateUsers stepId tx users = some tx' →
      tx'.db = { tx.db with
        workflow_step_template_user :=
          tx.db.workflow_step_template_user
            ++ users.map fun u => WorkflowStepTemplateUser.mk stepId u.ID } := by
  induction users with
  | nil =>
    intro tx tx' h
    simp only [insertStepTemplateUsers, Option.some.injEq] at h
    subst h
    simp
  | cons user rest ih =>
    intro tx tx' h
    simp only [insertStepTemplateUsers] at h
    split at h
    · cases h
    · rename_i tx1 h1
      have hdb1 := Tx.exec_db _ _ _ h1
      rw [ih tx1 tx' h, hdb1]
      simp

theorem insertStepTemplates_ok (templateId : Nat) (steps : List WorkflowStepTemplate) :
    ∀ tx tx' : Tx, (insertStepTemplates templateId tx steps).1 = some tx' →
      tx'.db = { tx.db with
        workflow_step_templates :=
          tx.db.workflow_step_templates
            ++ stepTemplateRows templateId tx.db.nextStepTemplateId steps
        workflow_step_template_user :=
          tx.db.workflow_step_template_user
            ++ stepTemplateUserRows tx.db.nextStepTemplateId steps
        nextStepTemplateId := tx.db.nextStepTemplateId + steps.length } := by
  induction steps with
  | nil =>
    intro tx tx' h
    simp only [insertStepTemplates, Option.some.injEq] at h
    subst h
    simp [stepTemplateRows, stepTemplateUserRows]
  | cons step rest ih =>
    intro tx tx' h
    simp only [insertStepTemplates] at h
    split at h
    · cases h
    · rename_i tx1 h1
      have hdb1 := Tx.exec_db _ _ _ h1
      split at h
      · cases h
      · rename_i tx2 h2
        have hdb2 := insertStepTemplateUsers_ok _ _ _ _ h2
        simp only at h
        have hdb3 := ih tx2 tx' h
        have hk : tx2.db.nextStepTemplateId = tx.db.nextStepTemplateId + 1 := by
          rw [hdb2, hdb1]
        rw [hk] at hdb3
        rw [hdb3, hdb2, hdb1]
        simp [stepTemplateRows, stepTemplateUserRows, Nat.add_assoc, Nat.add_comm]
        omega

/-- A call of `UpdateWorkflowTemplateSteps` that returns no error has committed
the detached old rows followed by the new rows, and the new user rows. -/
theorem UpdateWorkflowTemplateSteps_ok (db db' : DB) (faults : List Bool) (templateId : Nat)
    (steps steps' : List WorkflowStepTemplate)
    (h : UpdateWorkflowTemplateSteps db faults templateId steps = (none, db', steps')) :
    db' = { db with
      workflow_step_templates :=
        db.workflow_step_templates.map (detachStepTemplate templateId)
          ++ stepTemplateRows templateId db.nextStepTemplateId steps
      workflow_step_template_user :=
        db.workflow_step_template_user ++ stepTemplateUserRows db.nextStepTemplateId steps
      nextStepTemplateId := db.nextStepTemplateId + steps.length } := by
  unfold UpdateWorkflowTemplateSteps at h
  simp only [Prod.mk.injEq] at h
  obtain ⟨herr, hdb, _⟩ := h
  have hpair : TxExec db faults
      (fun tx => (updateWorkflowTemplateStepsBody templateId steps tx).1) = (none, db') :=
    Prod.ext herr hdb
  obtain ⟨tx, htx, hdb'⟩ := TxExec_ok _ _ _ _ hpair
  simp only [updateWorkflowTemplateStepsBody] at htx
  split at htx
  · cases htx
  · rename_i tx1 h1
    have hdb1 := Tx.exec_db _ _ _ h1
    have hdb2 := insertStepTemplates_ok _ _ _ _ htx
    have hk : tx1.db.nextStepTemplateId = db.nextStepTemplateId := by rw [hdb1]
    rw [hk] at hdb2
    rw [hdb', hdb2, hdb1]

theorem stepTemplateRows_length (templateId : Nat) (steps : List WorkflowStepTemplate)
    (k : Nat) : (stepTemplateRows templateId k steps).length = steps.length := by
  induction steps generalizing k with
  | nil => rfl
  | cons step rest ih => simp [stepTemplateRows, ih]

theorem stepTemplateRows_getElem? (templateId : Nat) (steps : List WorkflowStepTemplate)
    (k i : Nat) :
    (stepTemplateRows templateId k steps)[i]?
      = (steps[i]?).map (insertedStepTemplate (k + i) templateId) := by
  induction steps generalizing k i with
  | nil => simp [stepTemplateRows]
  | cons step rest ih =>
    cases i with
    | zero => simp [stepTemplateRows]
    | succ n =>
      simp only [stepTemplateRows, List.getElem?_cons_succ, ih]
      have : k + 1 + n = k + (n + 1) := by omega
      rw [this]

theorem stepTemplateUserRows_mem (steps : List WorkflowStepTemplate) :
    ∀ (k : Nat) (row : WorkflowStepTemplateUser),
      row ∈ stepTemplateUserRows k steps ↔
        ∃ (i : Nat) (step : WorkflowStepTemplate), steps[i]? = some step ∧
          row.workflow_step_template_id = k + i ∧ ∃ user ∈ step.Users, user.ID = row.user_id := by
  induction steps with
  | nil => intro k row; simp [stepTemplateUserRows]
  | cons s rest ih =>
    intro k row
    simp only [stepTemplateUserRows, List.mem_append, List.mem_map, ih]
    constructor
    · rintro (⟨u, hu, rfl⟩ | ⟨i, step, hstep, hid, huser⟩)
      · exact ⟨0, s, by simp, rfl, u, hu, rfl⟩
      · exact ⟨i + 1, step, by simpa using hstep, by omega, huser⟩
    · rintro ⟨i, step, hstep, hid, u, hu, huid⟩
      cases i with
      | zero =>
        simp only [List.getElem?_cons_zero, Option.some.injEq] at hstep
        subst hstep
        left
        refine ⟨u, hu, ?_⟩
        cases row
        simp only [WorkflowStepTemplateUser.mk.injEq]
        simp only at hid huid
        exact ⟨by omega, huid⟩
      | succ n =>
        right
        exact ⟨n, step, by simpa using hstep, by omega, u, hu, huid⟩

/-- C15: when `UpdateWorkflowTemplateSteps` returns no error (the step template
ids in use lying below the table's counter), the table `workflow_step_templates`
is the old table, in which every row that was attached to the template has its
`workflow_template_id` cleared and is otherwise as before and every other row is
untouched, followed by one new row per element of the new list, in list order,
attached to the template and carrying that element's number, type, desc and
`approved_by_authorized` (its `Bool` when it is valid, NULL when it is not); the
users recorded for the `i`-th new row are exactly
the users of the `i`-th element; and the users recorded for older step templates
are as before. -/
theorem UpdateWorkflowTemplateSteps_success (db db' : DB) (faults : List Bool)
    (templateId : Nat) (steps steps' : List WorkflowStepTemplate)
    (hwf : db.TemplatesWF)
    (hok : UpdateWorkflowTemplateSteps db faults templateId steps = (none, db', steps')) :
    ∃ newRows : List WorkflowStepTemplateRow,
      db'.workflow_step_templates
        = db.workflow_step_templates.map (fun row =>
            if row.WorkflowTemplateId = some (templateId : Int) then
              { row with WorkflowTemplateId := none }
            else row) ++ newRows ∧
      newRows.length = steps.length ∧
      (∀ (i : Nat) (step : WorkflowStepTemplate), steps[i]? = some step →
        newRows[i]? = some
          { ID := db.nextStepTemplateId + i
            Number := step.Number
            WorkflowTemplateId := some (templateId : Int)
            Typ := step.Typ
            Desc := step.Desc
            ApprovedByAuthorized :=
              if step.ApprovedByAuthorized.Valid = true then
                some step.ApprovedByAuthorized.Bool
              else none } ∧
        ∀ u : Nat,
          WorkflowStepTemplateUser.mk (db.nextStepTemplateId + i) u
              ∈ db'.workflow_step_template_user ↔
            ∃ user ∈ step.Users, user.ID = u) ∧
      (∀ row : WorkflowStepTemplateUser,
        row.workflow_step_template_id < db.nextStepTemplateId →
        (row ∈ db'.workflow_step_template_user ↔ row ∈ db.workflow_step_template_user)) := by
  have hdb' := UpdateWorkflowTemplateSteps_ok _ _ _ _ _ _ hok
  obtain ⟨_, husers⟩ := hwf
  refine ⟨stepTemplateRows templateId db.nextStepTemplateId steps, ?_, ?_, ?_, ?_⟩
  · rw [hdb']
    rfl
  · exact stepTemplateRows_length _ _ _
  · intro i step hstep
    refine ⟨?_, fun u => ?_⟩
    · rw [stepTemplateRows_getElem?, hstep]
      rfl
    · rw [hdb']
      simp only [List.mem_append, stepTemplateUserRows_mem]
      constructor
      · rintro (hold | ⟨j, step', hstep', hid, huser⟩)
        · have hlt : db.nextStepTemplateId + i < db.nextStepTemplateId := husers _ hold
          omega
        · have hj : j = i := by
            have hid' : db.nextStepTemplateId + i = db.nextStepTemplateId + j := hid
            omega
          subst hj
          rw [hstep] at hstep'
          cases hstep'
          exact huser
      · intro huser
        exact Or.inr ⟨i, step, hstep, rfl, huser⟩
  · intro row hrow
    rw [hdb']
    simp only [List.mem_append, stepTemplateUserRows_mem]
    constructor
    · rintro (hold | ⟨j, _, _, hid, _⟩)
      · exact hold
      · rw [hid] at hrow
        omega
    · intro hold
      exact Or.inl hold

theorem UpdateWorkflowTemplateSteps_success_witness :
    dbWithHistory.TemplatesWF ∧
    UpdateWorkflowTemplateSteps dbWithHistory [] 1 newTemplateSteps
      = (none, dbTemplateReplaced,
          (UpdateWorkflowTemplateSteps dbWithHistory [] 1 newTemplateSteps).2.2) ∧
    dbTemplateReplaced.workflow_step_templates
      = [{ ID := 11, Number := 1, WorkflowTemplateId := none, Typ := "sql_review",
           Desc := "", ApprovedByAuthorized := none },
         { ID := 12, Number := 2, WorkflowTemplateId := none, Typ := "sql_execute",
           Desc := "", ApprovedByAuthorized := none },
         { ID := 22, Number := 1, WorkflowTemplateId := some 1, Typ := "sql_review",
           Desc := "peer review", ApprovedByAuthorized := some false },
         { ID := 23, Number := 2, WorkflowTemplateId := some 1, Typ := "sql_execute",
           Desc := "run", ApprovedByAuthorized := some true },
         { ID := 24, Number := 3, WorkflowTemplateId := some 1, Typ := "sql_review",
           Desc := "sign off", ApprovedByAuthorized := none }] ∧
    dbTemplateReplaced.workflow_step_template_user
      = [⟨11, 1⟩, ⟨12, 3⟩, ⟨22, 2⟩, ⟨22, 3⟩, ⟨24, 1⟩] ∧
    ∃ newRows : List WorkflowStepTemplateRow,
      dbTemplateReplaced.workflow_step_templates
        = dbWithHistory.workflow_step_templates.map (fun row =>
            if row.WorkflowTemplateId = some ((1 : Nat) : Int) then
              { row with WorkflowTemplateId := none }
            else row) ++ newRows ∧
      newRows.length = newTemplateSteps.length ∧
      (∀ (i : Nat) (step : WorkflowStepTemplate), newTemplateSteps[i]? = some step →
        newRows[i]? = some
          { ID := dbWithHistory.nextStepTemplateId + i
            Number := step.Number
            WorkflowTemplateId := some ((1 : Nat) : Int)
            Typ := step.Typ
            Desc := step.Desc
            ApprovedByAuthorized :=
              if step.ApprovedByAuthorized.Valid = true then
                some step.ApprovedByAuthorized.Bool
              else none } ∧
        ∀ u : Nat,
          WorkflowStepTemplateUser.mk (dbWithHistory.nextStepTemplateId + i) u
              ∈ dbTemplateReplaced.workflow_step_template_user ↔
            ∃ user ∈ step.Users, user.ID = u) ∧
      (∀ row : WorkflowStepTemplateUser,
        row.workflow_step_template_id < dbWithHistory.nextStepTemplateId →
        (row ∈ dbTemplateReplaced.workflow_step_template_user
          ↔ row ∈ dbWithHistory.workflow_step_template_user)) :=
  ⟨by decide, by rfl, by decide, by decide,
    UpdateWorkflowTemplateSteps_success dbWithHistory dbTemplateReplaced [] 1 newTemplateSteps
      (UpdateWorkflowTemplateSteps dbWithHistory [] 1 newTemplateSteps).2.2
      (by decide) (by rfl)⟩

/-! ### `UpdateRole` -/

theorem resolveAssociation_spec {α β : Type} (requested : Option (List α))
    (check : List α → Except String (Slice β)) (call : List α → RoleCall) :
    ((resolveAssociation requested check call).2 = [] ∨
      ∃ values, (resolveAssociation requested check call).2 = [call values] ∧
        requested = some values ∧ values ≠ []) ∧
    (∀ passed, (resolveAssociation requested check call).1 = .ok passed →
      AssociationPassed requested check passed) ∧
    ((∀ values, requested = some values → values ≠ [] → ∃ passed, check values = .ok passed) →
      ∃ passed, (resolveAssociation requested check call).1 = .ok passed) := by
  cases requested with
  | none =>
    refine ⟨Or.inl rfl, ?_, fun _ => ⟨none, rfl⟩⟩
    intro passed h
    simp only [resolveAssociation, Except.ok.injEq] at h
    exact h.symm
  | some values =>
    cases values with
    | nil =>
      refine ⟨Or.inl rfl, ?_, fun _ => ⟨some [], rfl⟩⟩
      intro passed h
      simp only [resolveAssociation, List.length_nil, Nat.lt_irrefl, if_false,
        Except.ok.injEq, gt_iff_lt] at h
      exact h.symm
    | cons v vs =>
      have hres : resolveAssociation (some (v :: vs)) check call
          = (check (v :: vs), [call (v :: vs)]) := by
        simp [resolveAssociation]
      rw [hres]
      refine ⟨Or.inr ⟨v :: vs, rfl, rfl, by simp⟩, fun passed h => h, fun hpass => ?_⟩
      exact hpass (v :: vs) rfl (by simp)

/-- The calls of a run of `UpdateRole` on an existing role: the lookup, the
checks the four blocks made, and, exactly when all four blocks got through, the
save of the updated role with the four resolved slices, whose result is the
response. -/
theorem UpdateRole_run (env : RoleEnv) (req : UpdateRoleReqV2) (role : Role)
    (hbind : env.BindAndValidateReq = .ok req)
    (hrole : env.GetRoleByName env.role_name = (role, true, none)) :
    (∀ c ∈ (UpdateRole env).2,
      c = RoleCall.GetRoleByName env.role_name ∨
      c ∈ (resolveAssociation req.Instances env.GetAndCheckInstanceExist
            RoleCall.GetAndCheckInstanceExist).2 ∨
      c ∈ (resolveAssociation req.OperationCodes (checkOperationCodes env)
            RoleCall.CheckIfOperationCodeValid).2 ∨
      c ∈ (resolveAssociation req.Users env.GetAndCheckUserExist
            RoleCall.GetAndCheckUserExist).2 ∨
      c ∈ (resolveAssociation req.UserGroups env.GetAndCheckUserGroupExist
            RoleCall.GetAndCheckUserGroupExist).2 ∨
      ∃ i o u g,
        (resolveAssociation req.Instances env.GetAndCheckInstanceExist
          RoleCall.GetAndCheckInstanceExist).1 = .ok i ∧
        (resolveAssociation req.OperationCodes (checkOperationCodes env)
          RoleCall.CheckIfOperationCodeValid).1 = .ok o ∧
        (resolveAssociation req.Users env.GetAndCheckUserExist
          RoleCall.GetAndCheckUserExist).1 = .ok u ∧
        (resolveAssociation req.UserGroups env.GetAndCheckUserGroupExist
          RoleCall.GetAndCheckUserGroupExist).1 = .ok g ∧
        c = RoleCall.SaveRoleAndAssociations (updateStatAndDesc env req role) i o u g ∧
        (UpdateRole env).1 = RoleResponse.JSONBaseErrorReq
          (env.SaveRoleAndAssociations (updateStatAndDesc env req role) i o u g)) ∧
    (∀ i o u g,
      (resolveAssociation req.Instances env.GetAndCheckInstanceExist
        RoleCall.GetAndCheckInstanceExist).1 = .ok i →
      (resolveAssociation req.OperationCodes (checkOperationCodes env)
        RoleCall.CheckIfOperationCodeValid).1 = .ok o →
      (resolveAssociation req.Users env.GetAndCheckUserExist
        RoleCall.GetAndCheckUserExist).1 = .ok u →
      (resolveAssociation req.UserGroups env.GetAndCheckUserGroupExist
        RoleCall.GetAndCheckUserGroupExist).1 = .ok g →
      RoleCall.SaveRoleAndAssociations (updateStatAndDesc env req role) i o u g
        ∈ (UpdateRole env).2) := by
  unfold UpdateRole
  simp only [hbind, hrole, Bool.not_true, Bool.false_eq_true, if_false]
  cases h1 : (resolveAssociation req.Instances env.GetAndCheckInstanceExist
      RoleCall.GetAndCheckInstanceExist).1 with
  | error e1 =>
    refine ⟨fun c hc => ?_, fun i o u g hi => by cases hi⟩
    simp only [List.mem_append, List.mem_singleton] at hc
    tauto
  | ok i1 =>
    cases h2 : (resolveAssociation req.OperationCodes (checkOperationCodes env)
        RoleCall.CheckIfOperationCodeValid).1 with
    | error e2 =>
      refine ⟨fun c hc => ?_, fun i o u g _ ho => by cases ho⟩
      simp only [List.mem_append, List.mem_singleton] at hc
      tauto
    | ok o2 =>
      cases h3 : (resolveAssociation req.Users env.GetAndCheckUserExist
          RoleCall.GetAndCheckUserExist).1 with
      | error e3 =>
        refine ⟨fun c hc => ?_, fun i o u g _ _ hu => by cases hu⟩
        simp only [List.mem_append, List.mem_singleton] at hc
        tauto
      | ok u3 =>
        cases h4 : (resolveAssociation req.UserGroups env.GetAndCheckUserGroupExist
            RoleCall.GetAndCheckUserGroupExist).1 with
        | error e4 =>
          refine ⟨fun c hc => ?_, fun i o u g _ _ _ hg => by cases hg⟩
          simp only [List.mem_append, List.mem_singleton] at hc
          tauto
        | ok g4 =>
          refine ⟨fun c hc => ?_, fun i o u g hi ho hu hg => ?_⟩
          · simp only [List.mem_append, List.mem_singleton] at hc
            rcases hc with ((((hc | hc) | hc) | hc) | hc) | hc
            · exact Or.inl hc
            · exact Or.inr (Or.inl hc)
            · exact Or.inr (Or.inr (Or.inl hc))
            · exact Or.inr (Or.inr (Or.inr (Or.inl hc)))
            · exact Or.inr (Or.inr (Or.inr (Or.inr (Or.inl hc))))
            · exact Or.inr (Or.inr (Or.inr (Or.inr (Or.inr
                ⟨i1, o2, u3, g4, rfl, rfl, rfl, rfl, hc, rfl⟩))))
          · cases hi; cases ho; cases hu; cases hg
            simp

theorem resolveAssociation_mem {α β : Type} (requested : Option (List α))
    (check : List α → Except String (Slice β)) (call : List α → RoleCall) (c : RoleCall)
    (h : c ∈ (resolveAssociation requested check call).2) :
    ∃ values, c = call values ∧ requested = some values ∧ values ≠ [] := by
  rcases (resolveAssociation_spec requested check call).1 with hnil | ⟨values, hlog, hreq, hne⟩
  · rw [hnil] at h
    cases h
  · rw [hlog] at h
    exact ⟨values, List.mem_singleton.mp h, hreq, hne⟩

theorem updateStatAndDesc_spec (env : RoleEnv) (req : UpdateRoleReqV2) (role : Role) :
    (updateStatAndDesc env req role).ID = role.ID ∧
    (updateStatAndDesc env req role).Name = role.Name ∧
    (updateStatAndDesc env req role).Stat
      = (match req.IsDisabled with
         | some true => env.Disabled
         | some false => env.Enabled
         | none => role.Stat) ∧
    (updateStatAndDesc env req role).Desc
      = (match req.Desc with
         | some desc => desc
         | none => role.Desc) := by
  unfold updateStatAndDesc
  cases hd : req.IsDisabled with
  | none => cases hdesc : req.Desc <;> simp
  | some b => cases b <;> cases hdesc : req.Desc <;> simp

/-- C20: in an `UpdateRole` call whose request binds and whose role exists,
each of the four checks is called only with a list that is present in the
request and non-empty; and when `SaveRoleAndAssociations` is called, its result
is the response, the role it receives is the stored role with `Stat` set to
`Disabled` or `Enabled` according to `is_disabled` when that is present and
unchanged when it is omitted, with `Desc` replaced only when `role_desc` is
present, and each of the four slices it receives is nil when the list was
omitted, non-nil and empty when the list was present and empty, and the checked
value when the list was present and non-empty (for the operation codes: the
request's own codes, found valid).  When every check that is run passes,
`SaveRoleAndAssociations` is called. -/
theorem UpdateRole_associations (env : RoleEnv) (req : UpdateRoleReqV2) (role : Role)
    (hbind : env.BindAndValidateReq = .ok req)
    (hrole : env.GetRoleByName env.role_name = (role, true, none)) :
    (∀ names, RoleCall.GetAndCheckInstanceExist names ∈ (UpdateRole env).2 →
      req.Instances = some names ∧ names ≠ []) ∧
    (∀ codes, RoleCall.CheckIfOperationCodeValid codes ∈ (UpdateRole env).2 →
      req.OperationCodes = some codes ∧ codes ≠ []) ∧
    (∀ names, RoleCall.GetAndCheckUserExist names ∈ (UpdateRole env).2 →
      req.Users = some names ∧ names ≠ []) ∧
    (∀ names, RoleCall.GetAndCheckUserGroupExist names ∈ (UpdateRole env).2 →
      req.UserGroups = some names ∧ names ≠ []) ∧
    (∀ r i o u g, RoleCall.SaveRoleAndAssociations r i o u g ∈ (UpdateRole env).2 →
      (UpdateRole env).1
        = RoleResponse.JSONBaseErrorReq (env.SaveRoleAndAssociations r i o u g) ∧
      r.ID = role.ID ∧ r.Name = role.Name ∧
      r.Stat = (match req.IsDisabled with
                | some true => env.Disabled
                | some false => env.Enabled
                | none => role.Stat) ∧
      r.Desc = (match req.Desc with
                | some desc => desc
                | none => role.Desc) ∧
      AssociationPassed req.Instances env.GetAndCheckInstanceExist i ∧
      AssociationPassed req.OperationCodes (checkOperationCodes env) o ∧
      (∀ codes, req.OperationCodes = some codes → codes ≠ [] →
        env.CheckIfOperationCodeValid codes = none ∧ o = some codes) ∧
      AssociationPassed req.Users env.GetAndCheckUserExist u ∧
      AssociationPassed req.UserGroups env.GetAndCheckUserGroupExist g) ∧
    ((∀ names, req.Instances = some names → names ≠ [] →
        ∃ passed, env.GetAndCheckInstanceExist names = .ok passed) →
      (∀ codes, req.OperationCodes = some codes → codes ≠ [] →
        env.CheckIfOperationCodeValid codes = none) →
      (∀ names, req.Users = some names → names ≠ [] →
        ∃ passed, env.GetAndCheckUserExist names = .ok passed) →
      (∀ names, req.UserGroups = some names → names ≠ [] →
        ∃ passed, env.GetAndCheckUserGroupExist names = .ok passed) →
      ∃ r i o u g, RoleCall.SaveRoleAndAssociations r i o u g ∈ (UpdateRole env).2) := by
  obtain ⟨hlog, hsave⟩ := UpdateRole_run env req role hbind hrole
  refine ⟨?_, ?_, ?_, ?_, ?_, ?_⟩
  · intro names hmem
    rcases hlog _ hmem with h | h | h | h | h | h
    · cases h
    · obtain ⟨v, hv, hreq, hne⟩ := resolveAssociation_mem _ _ _ _ h
      cases hv
      exact ⟨hreq, hne⟩
    · obtain ⟨v, hv, _⟩ := resolveAssociation_mem _ _ _ _ h
      cases hv
    · obtain ⟨v, hv, _⟩ := resolveAssociation_mem _ _ _ _ h
      cases hv
    · obtain ⟨v, hv, _⟩ := resolveAssociation_mem _ _ _ _ h
      cases hv
    · obtain ⟨_, _, _, _, _, _, _, _, hc, _⟩ := h
      cases hc
  · intro codes hmem
    rcases hlog _ hmem with h | h | h | h | h | h
    · cases h
    · obtain ⟨v, hv, _⟩ := resolveAssociation_mem _ _ _ _ h
      cases hv
    · obtain ⟨v, hv, hreq, hne⟩ := resolveAssociation_mem _ _ _ _ h
      cases hv
      exact ⟨hreq, hne⟩
    · obtain ⟨v, hv, _⟩ := resolveAssociation_mem _ _ _ _ h
      cases hv
    · obtain ⟨v, hv, _⟩ := resolveAssociation_mem _ _ _ _ h
      cases hv
    · obtain ⟨_, _, _, _, _, _, _, _, hc, _⟩ := h
      cases hc
  · intro names hmem
    rcases hlog _ hmem with h | h | h | h | h | h
    · cases h
    · obtain ⟨v, hv, _⟩ := resolveAssociation_mem _ _ _ _ h
      cases hv
    · obtain ⟨v, hv, _⟩ := resolveAssociation_mem _ _ _ _ h
      cases hv
    · obtain ⟨v, hv, hreq, hne⟩ := resolveAssociation_mem _ _ _ _ h
      cases hv
      exact ⟨hreq, hne⟩
    · obtain ⟨v, hv, _⟩ := resolveAssociation_mem _ _ _ _ h
      cases hv
    · obtain ⟨_, _, _, _, _, _, _, _, hc, _⟩ := h
      cases hc
  · intro names hmem
    rcases hlog _ hmem with h | h | h | h | h | h
    · cases h
    · obtain ⟨v, hv, _⟩ := resolveAssociation_mem _ _ _ _ h
      cases hv
    · obtain ⟨v, hv, _⟩ := resolveAssociation_mem _ _ _ _ h
      cases hv
    · obtain ⟨v, hv, _⟩ := resolveAssociation_mem _ _ _ _ h
      cases hv
    · obtain ⟨v, hv, hreq, hne⟩ := resolveAssociation_mem _ _ _ _ h
      cases hv
      exact ⟨hreq, hne⟩
    · obtain ⟨_, _, _, _, _, _, _, _, hc, _⟩ := h
      cases hc
  · intro r i o u g hmem
    rcases hlog _ hmem with h | h | h | h | h | h
    · cases h
    · obtain ⟨v, hv, _⟩ := resolveAssociation_mem _ _ _ _ h
      cases hv
    · obtain ⟨v, hv, _⟩ := resolveAssociation_mem _ _ _ _ h
      cases hv
    · obtain ⟨v, hv, _⟩ := resolveAssociation_mem _ _ _ _ h
      cases hv
    · obtain ⟨v, hv, _⟩ := resolveAssociation_mem _ _ _ _ h
      cases hv
    · obtain ⟨i', o', u', g', hi, ho, hu, hg, hc, hresp⟩ := h
      cases hc
      obtain ⟨hid, hname, hstat, hdesc⟩ := updateStatAndDesc_spec env req role
      have hpo := (resolveAssociation_spec req.OperationCodes (checkOperationCodes env)
        RoleCall.CheckIfOperationCodeValid).2.1 _ ho
      refine ⟨hresp, hid, hname, hstat, hdesc,
        (resolveAssociation_spec _ _ _).2.1 _ hi, hpo, ?_,
        (resolveAssociation_spec _ _ _).2.1 _ hu,
        (resolveAssociation_spec _ _ _).2.1 _ hg⟩
      intro codes hcodes hne
      rw [hcodes] at hpo
      cases codes with
      | nil => exact absurd rfl hne
      | cons c cs =>
        simp only [AssociationPassed, checkOperationCodes] at hpo
        cases hvalid : env.CheckIfOperationCodeValid (c :: cs) with
        | some err => simp [hvalid] at hpo
        | none =>
          simp only [hvalid, Except.ok.injEq] at hpo
          exact ⟨rfl, hpo.symm⟩
  · intro hi ho hu hg
    obtain ⟨i, hi'⟩ := (resolveAssociation_spec req.Instances env.GetAndCheckInstanceExist
      RoleCall.GetAndCheckInstanceExist).2.2 hi
    have ho'' : ∀ codes, req.OperationCodes = some codes → codes ≠ [] →
        ∃ passed, checkOperationCodes env codes = .ok passed := by
      intro codes hcodes hne
      exact ⟨some codes, by simp [checkOperationCodes, ho codes hcodes hne]⟩
    obtain ⟨o, ho'⟩ := (resolveAssociation_spec req.OperationCodes (checkOperationCodes env)
      RoleCall.CheckIfOperationCodeValid).2.2 ho''
    obtain ⟨u, hu'⟩ := (resolveAssociation_spec req.Users env.GetAndCheckUserExist
      RoleCall.GetAndCheckUserExist).2.2 hu
    obtain ⟨g, hg'⟩ := (resolveAssociation_spec req.UserGroups env.GetAndCheckUserGroupExist
      RoleCall.GetAndCheckUserGroupExist).2.2 hg
    exact ⟨_, i, o, u, g, hsave i o u g hi' ho' hu' hg'⟩

theorem UpdateRole_associations_witness :
    roleEnv.BindAndValidateReq = .ok updateRoleReq ∧
    roleEnv.GetRoleByName roleEnv.role_name = (roleDev, true, none) ∧
    UpdateRole roleEnv
      = (RoleResponse.JSONBaseErrorReq none,
          [RoleCall.GetRoleByName "dev",
           RoleCall.GetAndCheckUserExist ["alice"],
           RoleCall.SaveRoleAndAssociations { roleDev with Stat := 1 } none (some [])
             (some [{ ID := 1, Name := "alice" }]) none]) ∧
    (∀ r i o u g, RoleCall.SaveRoleAndAssociations r i o u g ∈ (UpdateRole roleEnv).2 →
      (UpdateRole roleEnv).1
        = RoleResponse.JSONBaseErrorReq (roleEnv.SaveRoleAndAssociations r i o u g) ∧
      r.ID = roleDev.ID ∧ r.Name = roleDev.Name ∧
      r.Stat = (match updateRoleReq.IsDisabled with
                | some true => roleEnv.Disabled
                | some false => roleEnv.Enabled
                | none => roleDev.Stat) ∧
      r.Desc = (match updateRoleReq.Desc with
                | some desc => desc
                | none => roleDev.Desc) ∧
      AssociationPassed updateRoleReq.Instances roleEnv.GetAndCheckInstanceExist i ∧
      AssociationPassed updateRoleReq.OperationCodes (checkOperationCodes roleEnv) o ∧
      (∀ codes, updateRoleReq.OperationCodes = some codes → codes ≠ [] →
        roleEnv.CheckIfOperationCodeValid codes = none ∧ o = some codes) ∧
      AssociationPassed updateRoleReq.Users roleEnv.GetAndCheckUserExist u ∧
      AssociationPassed updateRoleReq.UserGroups roleEnv.GetAndCheckUserGroupExist g) :=
  ⟨rfl, rfl, by decide,
    (UpdateRole_associations roleEnv updateRoleReq roleDev rfl rfl).2.2.2.2.1⟩

/-! ### `generateWorkflowStepByTemplate` and the nullable `approved_by_authorized` -/

/-- C2, as stated, fails: for a step template whose `approved_by_authorized` is
not valid while its `Bool` field is set, the nullable value is not true, yet the
generated step does not get the template's own users: it gets the inspector
list. -/
theorem generateWorkflowStepByTemplate_assignees_counterexample :
    nullBoolIsTrue templateNullButSet.ApprovedByAuthorized = false ∧
    ((generateWorkflowStepByTemplate [templateNullButSet] [userEve, userFrank])[0]?).map
        (fun step => step.Assignees)
      ≠ some (if nullBoolIsTrue templateNullButSet.ApprovedByAuthorized = true then
                [userEve, userFrank]
              else templateNullButSet.Users) ∧
    ((generateWorkflowStepByTemplate [templateNullButSet] [userEve, userFrank])[0]?).map
        (fun step => step.Assignees) = some [userEve, userFrank] := by
  decide

/-- C2, amended: for a step template whose `approved_by_authorized` is valid, or
not valid with its `Bool` field false (the value a scan of NULL leaves), the
generated step has the inspector list as assignees when `approved_by_authorized`
is true and the template's own users otherwise. -/
theorem generateWorkflowStepByTemplate_assignees (stepsTemplate : List WorkflowStepTemplate)
    (allInspector : List User) (i : Nat) (st : WorkflowStepTemplate)
    (hst : stepsTemplate[i]? = some st)
    (hscan : st.ApprovedByAuthorized.Valid = true ∨ st.ApprovedByAuthorized.Bool = false) :
    ((generateWorkflowStepByTemplate stepsTemplate allInspector)[i]?).map
        (fun step => step.Assignees)
      = some (if nullBoolIsTrue st.ApprovedByAuthorized = true then allInspector
              else st.Users) := by
  rw [generateWorkflowStepByTemplate_eq_map, List.getElem?_map, hst]
  simp only [Option.map_some', generateWorkflowStep_assignees, nullBoolIsTrue]
  rcases hscan with hvalid | hbool
  · simp [hvalid]
  · simp [hbool]

theorem generateWorkflowStepByTemplate_assignees_witness :
    [templateAuthorized, templateReview][0]? = some templateAuthorized ∧
    (templateAuthorized.ApprovedByAuthorized.Valid = true ∨
      templateAuthorized.ApprovedByAuthorized.Bool = false) ∧
    ((generateWorkflowStepByTemplate [templateAuthorized, templateReview]
          [userEve, userFrank])[0]?).map (fun step => step.Assignees)
      = some [userEve, userFrank] ∧
    ((generateWorkflowStepByTemplate [templateAuthorized, templateReview]
          [userEve, userFrank])[0]?).map (fun step => step.Assignees)
      = some (if nullBoolIsTrue templateAuthorized.ApprovedByAuthorized = true then
                [userEve, userFrank]
              else templateAuthorized.Users) :=
  ⟨rfl, Or.inl rfl, by decide,
    generateWorkflowStepByTemplate_assignees [templateAuthorized, templateReview]
      [userEve, userFrank] 0 templateAuthorized rfl (Or.inl rfl)⟩

end Sqle
